import Mathlib

/-!
Verification of `dashboard_release_notes/main.py`: a script that turns a
changeset log into release notes by resolving each commit hash to pull-request
metadata through a GitHub REST API, using a three-strategy fallback chain.

The embedding models the script's pure computations (regex matching on
commit messages and changeset lines, identity formatting, contributor
deduplication, report rendering) directly, and models one HTTP round of
`get_pull_request_info` as a function from an abstract API environment to an
outcome (a returned value, or a sleep-and-retry), together with the list of
messages printed and the list of API calls issued, in order.  The unbounded
rate-limit retry recursion is modelled with explicit fuel over a sequence of
environments (one per attempt).
-/

namespace DashboardReleaseNotes

/-- Python `\s` on the ASCII range (the script only ever feeds it ASCII
whitespace in the constructs we verify). -/
def isPySpace (c : Char) : Bool :=
  c = ' ' || c = '\t' || c = '\n' || c = '\r' || c = '\x0b' || c = '\x0c'

/-- Python `str.strip()` (whitespace strip on both ends). -/
def pyStrip (s : String) : String :=
  ⟨(((s.toList.dropWhile isPySpace).reverse.dropWhile isPySpace).reverse)⟩

/-- ASCII lowercasing, as Python `str.lower()` acts on the ASCII titles and
keywords involved here. -/
def pyLower (s : String) : String :=
  ⟨s.toList.map Char.toLower⟩

/-- Decides whether `pre` is a prefix of `l`. -/
def isPrefixListB : List Char → List Char → Bool
  | [], _ => true
  | _ :: _, [] => false
  | a :: as, b :: bs => a = b && isPrefixListB as bs

/-- Python `needle in hay` on strings: contiguous-substring containment. -/
def containsSub (needle hay : List Char) : Bool :=
  match hay with
  | [] => needle.isEmpty
  | _ :: t => isPrefixListB needle hay || containsSub needle t

/-- If `l` starts with the literal `pre`, return the remainder. -/
def stripPre : List Char → List Char → Option (List Char)
  | [], l => some l
  | _ :: _, [] => none
  | a :: as, b :: bs => if a = b then stripPre as bs else none

/-- Python `str.splitlines()` restricted to the `\n`, `\r`, `\r\n` line
breaks (the ones that occur in the data this script handles).  The flag
records that the previous character was a line-flushing `\r`, so that an
immediately following `\n` is part of the same `\r\n` break. -/
def splitlinesAux : List Char → List Char → Bool → List (List Char)
  | [], acc, _ => if acc.isEmpty then [] else [acc.reverse]
  | c :: rest, acc, afterCR =>
    if afterCR && c = '\n' then splitlinesAux rest acc false
    else if c = '\n' then acc.reverse :: splitlinesAux rest [] false
    else if c = '\r' then acc.reverse :: splitlinesAux rest [] true
    else splitlinesAux rest (c :: acc) false

/-- Python `str.splitlines()` on a string. -/
def pySplitlines (s : String) : List String :=
  (splitlinesAux s.toList [] false).map fun l => ⟨l⟩

/-- Lower-case hexadecimal digit, the character class `[0-9a-f]` of the
commit-hash regex. -/
def isHexLower (c : Char) : Bool :=
  ('0' ≤ c && c ≤ '9') || ('a' ≤ c && c ≤ 'f')

/-- `re.search(r"([0-9a-f]{7,40}):", line)`: scan start positions left to
right; at a position the greedy quantifier matches the full run of hex digits
from there, which must have length between 7 and 40 and be followed by `:`.
Returns the captured group of the leftmost match. -/
def hashMatch : List Char → Option String
  | [] => none
  | c :: rest =>
    let run := (c :: rest).takeWhile isHexLower
    if 7 ≤ run.length && run.length ≤ 40 && ((c :: rest).drop run.length).head? = some ':' then
      some ⟨run⟩
    else
      hashMatch rest

/-- `re.search(r"#(\d+)", message)`: the digit group after the leftmost `#`
that is immediately followed by at least one digit. -/
def prRefMatch : List Char → Option String
  | [] => none
  | c :: rest =>
    if c = '#' then
      let ds := rest.takeWhile Char.isDigit
      if ds.isEmpty then prRefMatch rest else some ⟨ds⟩
    else
      prRefMatch rest

/-- The literal head of the co-author trailer regex
`Co-authored-by:\s*([^<]*)<([^>]+)>`. -/
def coPattern : List Char := "Co-authored-by:".toList

/-- Matching the tail `\s*([^<]*)<([^>]+)>` of the co-author regex at a fixed
position (just after the literal `Co-authored-by:`), with the greedy
semantics of `re`: skip whitespace, capture up to the first `<`, then capture
the nonempty run up to the first `>`, which must be followed by `>`. -/
def coMatchAt (cs : List Char) : Option (String × String) :=
  let afterWs := cs.dropWhile isPySpace
  let g1 := afterWs.takeWhile (fun c => !(c = '<'))
  let rest := afterWs.dropWhile (fun c => !(c = '<'))
  if rest.head? = some '<' then
    let rest2 := rest.tail
    let g2 := rest2.takeWhile (fun c => !(c = '>'))
    if g2.isEmpty then none
    else if (rest2.dropWhile (fun c => !(c = '>'))).head? = some '>' then
      some (⟨g1⟩, ⟨g2⟩)
    else none
  else none

/-- `re.search` of the co-author regex over one line: try each start position
left to right; a start can only succeed where the literal `Co-authored-by:`
begins. -/
def coSearch : List Char → Option (String × String)
  | [] => none
  | c :: rest =>
    match stripPre coPattern (c :: rest) with
    | some tail =>
      match coMatchAt tail with
      | some r => some r
      | none => coSearch rest
    | none => coSearch rest

/-- The identity formatting applied to one matched (and stripped) co-author
name/email pair:
if the email contains the substring `@github.com`, use `@` followed by the
text before the email's first `@`; else if the name is nonempty and contains
none of space, `.`, `,`, use `@name`; else the raw name. -/
def coAuthorIdentity (name email : String) : String :=
  if containsSub "@github.com".toList email.toList then
    "@" ++ ⟨email.toList.takeWhile (fun c => !(c = '@'))⟩
  else if name ≠ "" && !(name.toList.any (fun c => c = ' ' || c = '.' || c = ',')) then
    "@" ++ name
  else
    name

/-- Per-line co-author extraction: match the trailer regex, strip both
captured groups, format the identity. -/
def coAuthorLine (line : String) : Option String :=
  (coSearch line.toList).map fun g => coAuthorIdentity (pyStrip g.1) (pyStrip g.2)

/-- The `co_authors` list built from a commit message: one identity per line
whose search matches, in message order, no deduplication. -/
def coAuthorsOf (message : String) : List String :=
  (pySplitlines message).filterMap coAuthorLine

/-! ## The abstract API environment

One invocation of `get_pull_request_info` performs (at most) four HTTP GETs:
the commit detail, a PR detail by number, the issue search, and the
commit-to-pulls association.  Each response is modelled by the cases the
script distinguishes; the JSON payloads are modelled by records holding the
fields the script reads (a missing key and a JSON `null` are both `none`). -/

/-- Fields of the commit-detail payload the script reads. -/
structure CommitData where
  author_login : Option String
  author_name : Option String
  message : Option String
deriving DecidableEq, Repr

/-- Fields of a PR-detail payload the script reads. -/
structure PrDetail where
  body : Option String
  user_login : Option String
  title : Option String
deriving DecidableEq, Repr

/-- Fields of one item of the search payload the script reads. -/
structure SearchItem where
  title : Option String
  number : Nat
deriving DecidableEq, Repr

/-- Fields of one item of the commit-to-pulls payload the script reads. -/
structure PullItem where
  title : Option String
  number : Nat
  body : Option String
  user_login : Option String
deriving DecidableEq, Repr

/-- Response to the commit-detail request.  The script special-cases 404;
it has no rate-limit branch here, so a 403 rate-limit answer (`rateLimited`)
takes the same path as any other error status: `raise_for_status` raises and
the exception handler returns `None`. -/
inductive CommitResp where
  | ok (d : CommitData)
  | notFound
  | rateLimited (reset : Nat)
  | httpError
  | netError
deriving DecidableEq

/-- Response to a PR-detail request.  The script only tests for status 200;
every non-200 status (including a rate-limited 403) falls through, and a
transport failure raises. -/
inductive PrResp where
  | ok (d : PrDetail)
  | badStatus
  | netError
deriving DecidableEq

/-- Response to the search request: 200 with items, a 403 whose body contains
"rate limit" (carrying the `X-RateLimit-Reset` header value), any other
status, or a transport failure. -/
inductive SearchResp where
  | ok (items : List SearchItem)
  | rateLimited (reset : Nat)
  | badStatus
  | netError
deriving DecidableEq

/-- Response to the commit-to-pulls request: 200 with items, a rate-limited
403 (reset header value), any other error status (`raise_for_status`
raises), or a transport failure. -/
inductive PullsResp where
  | ok (items : List PullItem)
  | rateLimited (reset : Nat)
  | httpError
  | netError
deriving DecidableEq

/-- The API as seen by one invocation: one response per endpoint, the value
of `int(time.time())` at the rate-limit checks, and the text of whatever
exception a failing request raises. -/
structure Env where
  commit : CommitResp
  prDetail : String → PrResp
  search : SearchResp
  pulls : PullsResp
  now : Nat
  errMsg : String

/-- The dictionary `get_pull_request_info` returns on success. -/
structure PRInfo where
  pr_number : Option String
  pr_body : Option String
  pr_author : Option String
  commit_author : String
  co_authors : List String
deriving DecidableEq, Repr

/-- One HTTP GET issued by the resolver, with its distinguishing argument. -/
inductive ApiCall where
  | getCommit (hash : String)
  | getPr (num : String)
  | searchIssues (hash : String)
  | getCommitPulls (hash : String)
deriving DecidableEq, Repr

/-- What one pass of `get_pull_request_info` does: either return a value
(`none` on error/404), or sleep `wait` seconds and re-invoke itself. -/
inductive Outcome where
  | result (r : Option PRInfo)
  | retry (wait : Nat)
deriving DecidableEq, Repr

/-- One pass of the resolver: its outcome, the messages it printed and the
API calls it issued, in order. -/
structure StepResult where
  outcome : Outcome
  prints : List String
  calls : List ApiCall
deriving DecidableEq, Repr

/-- Prepend the prints and calls a caller accumulated before falling through
to a later strategy. -/
def StepResult.withPre (ps : List String) (cs : List ApiCall) (s : StepResult) : StepResult :=
  ⟨s.outcome, ps ++ s.prints, cs ++ s.calls⟩

/-- Python truthiness of an optional string field. -/
def strTruthy : Option String → Bool
  | none => false
  | some s => s ≠ ""

/-- `commit_author`: `@login` if the login field is truthy, else the commit
author name defaulted to `"Unknown"`. -/
def commitAuthorOf (d : CommitData) : String :=
  if strTruthy d.author_login then "@" ++ d.author_login.getD "" else d.author_name.getD "Unknown"

/-- `pr_author`: `@login` if the login field is truthy, else `"Unknown"`. -/
def prAuthorOf (login : Option String) : String :=
  if strTruthy login then "@" ++ login.getD "" else "Unknown"

/-- The fixed release-keyword list the title filter uses. -/
def releaseKeywords : List String := ["release", "changeset", "version bump", "bump version"]

/-- A PR is release-flagged when its lowercased title contains one of the
keywords (a missing title defaults to `""`). -/
def isReleasePR (title : Option String) : Bool :=
  releaseKeywords.any fun k => containsSub k.toList (pyLower (title.getD "")).toList

/-- The error message printed by the `except RequestException` handler. -/
def errPrint (env : Env) : String := "Error fetching data from GitHub: " ++ env.errMsg

/-- Strategy 3 (`/commits/{hash}/pulls`), assuming control fell through to
it with `commit_author`/`co_authors` already extracted.  The rate-limit
branch retries only when the clamped wait is positive; with a zero wait the
403 reaches `raise_for_status` and the handler returns `None`. -/
def strategy3 (env : Env) (hash commit_author : String) (co_authors : List String) : StepResult :=
  let base : List String := [s!"Falling back to commits/pulls endpoint for {hash}..."]
  let call : List ApiCall := [ApiCall.getCommitPulls hash]
  match env.pulls with
  | .netError => ⟨.result none, base ++ [errPrint env], call⟩
  | .httpError => ⟨.result none, base ++ [errPrint env], call⟩
  | .rateLimited reset =>
    let w := reset - env.now
    if w > 0 then
      ⟨.retry w, base ++ [s!"Rate limit exceeded. Waiting for {w} seconds..."], call⟩
    else
      ⟨.result none, base ++ [errPrint env], call⟩
  | .ok [] =>
    ⟨.result (some ⟨none, none, none, commit_author, co_authors⟩), base, call⟩
  | .ok (i0 :: rest) =>
    let original := (i0 :: rest).filter fun it => !(isReleasePR it.title)
    let chosen := original.headD i0
    ⟨.result (some ⟨some (toString chosen.number), some (chosen.body.getD ""),
        some (prAuthorOf chosen.user_login), commit_author, co_authors⟩), base, call⟩

/-- Strategy 2 (issue search), falling through to strategy 3 when it yields
nothing.  A rate-limited search retries only on a positive clamped wait;
with a zero wait the 403 simply fails the `status == 200` test and control
falls through to strategy 3. -/
def strategy2 (env : Env) (hash commit_author : String) (co_authors : List String) : StepResult :=
  let base : List String := [s!"Searching for PRs that mention commit {hash}..."]
  let call : List ApiCall := [ApiCall.searchIssues hash]
  match env.search with
  | .netError => ⟨.result none, base ++ [errPrint env], call⟩
  | .rateLimited reset =>
    let w := reset - env.now
    if w > 0 then
      ⟨.retry w, base ++ [s!"Rate limit exceeded. Waiting for {w} seconds..."], call⟩
    else
      (strategy3 env hash commit_author co_authors).withPre base call
  | .badStatus => (strategy3 env hash commit_author co_authors).withPre base call
  | .ok items =>
    match items.filter (fun it => !(isReleasePR it.title)) with
    | [] => (strategy3 env hash commit_author co_authors).withPre base call
    | item :: _ =>
      let pr_number := toString item.number
      match env.prDetail pr_number with
      | .ok detail =>
        let title := detail.title.getD ""
        ⟨.result (some ⟨some pr_number, detail.body, some (prAuthorOf detail.user_login),
            commit_author, co_authors⟩),
          base ++ [s!"Found original PR #{pr_number} via search: {title}"],
          call ++ [ApiCall.getPr pr_number]⟩
      | .badStatus =>
        (strategy3 env hash commit_author co_authors).withPre base (call ++ [ApiCall.getPr pr_number])
      | .netError =>
        ⟨.result none, base ++ [errPrint env], call ++ [ApiCall.getPr pr_number]⟩

/-- One pass of `get_pull_request_info`: fetch the commit (404 and errors
handled first), extract author and co-authors, then strategy 1 (a `#number`
reference in the message, resolved via the PR-detail endpoint), falling
through to strategies 2 and 3. -/
def stepResolve (env : Env) (hash repo : String) : StepResult :=
  match env.commit with
  | .notFound => ⟨.result none, [s!"Commit {hash} not found in repository {repo}"], [ApiCall.getCommit hash]⟩
  | .rateLimited _ => ⟨.result none, [errPrint env], [ApiCall.getCommit hash]⟩
  | .httpError => ⟨.result none, [errPrint env], [ApiCall.getCommit hash]⟩
  | .netError => ⟨.result none, [errPrint env], [ApiCall.getCommit hash]⟩
  | .ok d =>
    let commit_author := commitAuthorOf d
    let msg := d.message.getD ""
    let co_authors := coAuthorsOf msg
    match prRefMatch msg.toList with
    | some n =>
      let p1 : List String := [s!"Found PR reference #{n} in commit message"]
      match env.prDetail n with
      | .ok detail =>
        ⟨.result (some ⟨some n, detail.body, some (prAuthorOf detail.user_login),
            commit_author, co_authors⟩), p1, [ApiCall.getCommit hash, ApiCall.getPr n]⟩
      | .badStatus =>
        (strategy2 env hash commit_author co_authors).withPre p1 [ApiCall.getCommit hash, ApiCall.getPr n]
      | .netError =>
        ⟨.result none, p1 ++ [errPrint env], [ApiCall.getCommit hash, ApiCall.getPr n]⟩
    | none =>
      (strategy2 env hash commit_author co_authors).withPre [] [ApiCall.getCommit hash]

/-- The full resolver with explicit fuel: attempt `i` sees environment
`envs i`; a retry outcome re-invokes the whole call on the next environment.
`none` means the fuel ran out while the script would still be retrying. -/
def get_pull_request_info : Nat → (Nat → Env) → String → String → Option (Option PRInfo)
  | 0, _, _, _ => none
  | fuel + 1, envs, hash, repo =>
    match (stepResolve (envs 0) hash repo).outcome with
    | .result r => some r
    | .retry _ => get_pull_request_info fuel (fun i => envs (i + 1)) hash repo

/-- Did strategy 1 yield nothing (so that the search is attempted)?  Either
the message has no `#number` token, or the PR-detail request for it came
back with a non-200 status. -/
def strategy1FindsNoPR (env : Env) (d : CommitData) : Bool :=
  match prRefMatch (d.message.getD "").toList with
  | none => true
  | some n => env.prDetail n = .badStatus

/-- Did the search strategy yield nothing (so that control falls through to
the commit-to-pulls endpoint)?  True when the search response was a non-200
status, a rate-limited 403 whose clamped wait is zero, a 200 whose items all
carry release-flagged titles (or are absent), or a 200 whose first
non-release item's PR-detail request came back non-200. -/
def searchFindsNoPR (env : Env) : Bool :=
  match env.search with
  | .netError => false
  | .rateLimited reset => reset - env.now = 0
  | .badStatus => true
  | .ok items =>
    match items.filter (fun it => !(isReleasePR it.title)) with
    | [] => true
    | item :: _ => env.prDetail (toString item.number) = .badStatus

/-! ## Report assembly (`generate_release_notes`) -/

/-- The duplicate-removal loop of `generate_release_notes`: walk the list,
appending each element not already in the accumulator. -/
def pyDedupAux : List String → List String → List String
  | acc, [] => acc
  | acc, x :: xs => if x ∈ acc then pyDedupAux acc xs else pyDedupAux (acc ++ [x]) xs

/-- `unique_contributors` built from `contributors`: order-preserving,
first-occurrence deduplication. -/
def pyDedup (l : List String) : List String := pyDedupAux [] l

/-- The `contributors` list before deduplication: the commit author when
truthy and not `"Unknown"`, then the PR author when truthy, not `"Unknown"`
and different from the commit author, then the co-authors. -/
def contributorsRaw (info : PRInfo) : List String :=
  (if info.commit_author ≠ "" && info.commit_author ≠ "Unknown" then [info.commit_author] else [])
    ++ (match info.pr_author with
        | some a => if a ≠ "" && a ≠ "Unknown" && a ≠ info.commit_author then [a] else []
        | none => [])
    ++ info.co_authors

/-- The deduplicated contributor list of one entry. -/
def uniqueContributors (info : PRInfo) : List String :=
  pyDedup (contributorsRaw info)

/-- The text appended for one matched commit: the commit header with the PR
number when truthy, the `Contributors:` line when the deduplicated list is
nonempty, then the PR body when truthy or the fixed placeholder sentence;
an unresolved commit gets the short failure line instead. -/
def renderEntry (hash : String) (pr : Option PRInfo) : String :=
  match pr with
  | none => s!"Commit {hash}: Could not retrieve commit information.\n\n"
  | some info =>
    "Commit " ++ hash
      ++ (if strTruthy info.pr_number then " (PR #" ++ info.pr_number.getD "" ++ ")" else "")
      ++ ":\n"
      ++ (if uniqueContributors info ≠ [] then
            "Contributors: " ++ String.intercalate ", " (uniqueContributors info) ++ "\n"
          else "")
      ++ (if strTruthy info.pr_body then "\n" ++ info.pr_body.getD "" ++ "\n\n"
          else "\nNo pull request description found.\n\n")

/-- The hashes the loop of `generate_release_notes` resolves: the regex
match of each changeset line that has one, in document order. -/
def processedHashes (changeset : String) : List String :=
  (pySplitlines changeset).filterMap fun line => hashMatch line.toList

/-- The entries appended by the loop, one per matched line in document
order, where `resolve` is the value `get_pull_request_info` returns for a
hash. -/
def releaseNoteEntries (resolve : String → Option PRInfo) (changeset : String) : List String :=
  (pySplitlines changeset).filterMap fun line =>
    (hashMatch line.toList).map fun h => renderEntry h (resolve h)

/-- `generate_release_notes`: the original changeset text, a blank-line
separator, then the accumulated entries. -/
def generate_release_notes (resolve : String → Option PRInfo) (changeset : String) : String :=
  changeset ++ "\n\n" ++ String.join (releaseNoteEntries resolve changeset)

/-- Resolving against a fixed environment with fuel 1 (no retry needed in
the scenarios this is used for); out-of-fuel collapses to `none` as the
script would never have returned there. -/
def runResolve (env : Env) (repo : String) : String → Option PRInfo :=
  fun h => (get_pull_request_info 1 (fun _ => env) h repo).getD none

/-! ### Concrete API environments used as test vectors -/

/-- A commit whose message carries a `#42` PR reference. -/
def dMock : CommitData := ⟨some "alice", some "Alice", some "Fix stuff (#42)"⟩

/-- PR 42's detail payload. -/
def prMock : PrDetail := ⟨some "Fixes bug X", some "bob", some "Fix stuff"⟩

/-- An API in which strategy 1 succeeds for PR 42. -/
def envMock : Env :=
  ⟨.ok dMock, fun n => if n = "42" then .ok prMock else .badStatus, .badStatus, .httpError,
    1000, "boom"⟩

/-- A commit whose message has no PR reference. -/
def dPlain : CommitData := ⟨some "alice", some "Alice", some "msg"⟩

/-- A search result carrying only a release-flagged title. -/
def searchRelease : SearchItem := ⟨some "Release 1.2.0", 9⟩

/-- A commit-to-pulls result carrying only a release-flagged PR. -/
def pullRelease : PullItem := ⟨some "Release 1.2.0", 9, some "rel body", some "rel"⟩

/-- An API whose search and fallback endpoints return only release PRs. -/
def envForce : Env :=
  ⟨.ok dPlain, fun _ => .badStatus, .ok [searchRelease], .ok [pullRelease], 1000, "boom"⟩

/-- An API whose fallback endpoint answers a rate-limited 403 whose reset
timestamp is already in the past. -/
def envRL0 : Env :=
  ⟨.ok dPlain, fun _ => .badStatus, .badStatus, .rateLimited 0, 100, "403 Client Error"⟩

/-- An API whose search endpoint answers a rate-limited 403 with a reset
5 seconds in the future. -/
def envRL5 : Env :=
  ⟨.ok dPlain, fun _ => .badStatus, .rateLimited 105, .httpError, 100, "x"⟩

/-- The rate-limited search API, unchanged on every retry. -/
def envsRL : Nat → Env := fun _ => envRL5

/-- An API that answers every request with a rate-limited 403 whose reset
lies in the future, including the initial commit lookup. -/
def envC9bad : Env :=
  ⟨.rateLimited 1000, fun _ => .badStatus, .rateLimited 1000, .rateLimited 1000, 100,
    "403 rate limit"⟩

/-- That API, unchanged on every retry. -/
def envsC9bad : Nat → Env := fun _ => envC9bad

/-- A commit with no account login and one co-author trailer. -/
def dCo : CommitData := ⟨none, some "Jane Roe", some "msg\nCo-authored-by: jdoe <j@x.com>"⟩

/-- An API where all three strategies find no PR. -/
def envNone : Env := ⟨.ok dCo, fun _ => .badStatus, .ok [], .ok [], 100, "x"⟩

/-- An API whose commit lookup answers 404. -/
def envNotFound : Env := ⟨.notFound, fun _ => .badStatus, .badStatus, .httpError, 0, "e"⟩

/-- A commit payload with both author fields absent: the commit author
falls back to the literal `"Unknown"`. -/
def dUnknown : CommitData := ⟨none, none, some "msg"⟩

/-- An API yielding an `"Unknown"` commit author and no PR at all. -/
def envUnknown : Env := ⟨.ok dUnknown, fun _ => .badStatus, .ok [], .ok [], 100, "x"⟩

/-- The text after the last `@` of an email address. -/
def emailDomain (email : String) : String :=
  ⟨(email.toList.reverse.takeWhile (fun c => !(c = '@'))).reverse⟩

/-- The text before the first `@` of an email address. -/
def emailLocalPart (email : String) : String :=
  ⟨email.toList.takeWhile (fun c => !(c = '@'))⟩

/-- ASCII punctuation or space. -/
def isSpecPunct (c : Char) : Bool :=
  c = ' ' || (33 ≤ c.toNat && c.toNat ≤ 47) || (58 ≤ c.toNat && c.toNat ≤ 64)
    || (91 ≤ c.toNat && c.toNat ≤ 96) || (123 ≤ c.toNat && c.toNat ≤ 126)

/-- The co-author identity precedence as the specification words it, for
refinement comparison only: if the email's domain is the hosting provider's
no-reply domain (`users.noreply.github.com`), derive the username from the
email's local part and render `@username`; else if the name contains no
space or punctuation, render `@name`; else use the raw name unmodified. -/
def coAuthorIdentitySpec (name email : String) : String :=
  if emailDomain email = "users.noreply.github.com" then "@" ++ emailLocalPart email
  else if name ≠ "" && !(name.toList.any isSpecPunct) then "@" ++ name
  else name

/-- A resolved record used to exercise the contributor-list invariant. -/
def infoC5 : PRInfo := ⟨some "7", some "Body", some "@bob", "@alice", ["Jane D", "jane-d", "@alice"]⟩

/-- A resolved record whose commit and PR authors are both `"Unknown"`. -/
def infoC10 : PRInfo := ⟨some "5", some "B", some "Unknown", "Unknown", []⟩

/-- A resolved record with a normal commit author and an `"Unknown"` PR
author: only the `!= "Unknown"` test can drop the PR author here. -/
def infoC10a : PRInfo := ⟨some "5", some "B", some "Unknown", "@alice", []⟩

/-- A resolved record with an `"Unknown"` commit author and a normal PR
author, plus one co-author. -/
def infoC10b : PRInfo := ⟨none, none, some "@bob", "Unknown", ["x y"]⟩

/-! ## Helper lemmas about the deduplication loop -/

theorem pyDedupAux_nodup : ∀ (l acc : List String), acc.Nodup → (pyDedupAux acc l).Nodup
  | [], _, h => h
  | x :: xs, acc, h => by
    by_cases hx : x ∈ acc
    · simpa [pyDedupAux, hx] using pyDedupAux_nodup xs acc h
    · have hadd : (acc ++ [x]).Nodup := by
        refine List.nodup_append.mpr ⟨h, List.nodup_singleton x, ?_⟩
        intro a ha hax
        rw [List.mem_singleton] at hax
        exact hx (hax ▸ ha)
      simpa [pyDedupAux, hx] using pyDedupAux_nodup xs (acc ++ [x]) hadd

theorem pyDedup_nodup (l : List String) : (pyDedup l).Nodup :=
  pyDedupAux_nodup l [] List.nodup_nil

theorem pyDedupAux_sublist : ∀ (l acc : List String), (pyDedupAux acc l).Sublist (acc ++ l)
  | [], acc => by simp [pyDedupAux]
  | x :: xs, acc => by
    by_cases hx : x ∈ acc
    · have h1 := pyDedupAux_sublist xs acc
      have h2 : (acc ++ xs).Sublist (acc ++ x :: xs) :=
        List.Sublist.append_left (List.sublist_cons_self x xs) acc
      simpa [pyDedupAux, hx] using h1.trans h2
    · have h1 := pyDedupAux_sublist xs (acc ++ [x])
      simpa [pyDedupAux, hx, List.append_assoc] using h1

theorem pyDedup_sublist (l : List String) : (pyDedup l).Sublist l :=
  pyDedupAux_sublist l []

theorem mem_pyDedupAux : ∀ (l acc : List String) (a : String),
    a ∈ pyDedupAux acc l ↔ a ∈ acc ∨ a ∈ l
  | [], acc, a => by simp [pyDedupAux]
  | x :: xs, acc, a => by
    by_cases hx : x ∈ acc
    · rw [pyDedupAux, if_pos hx, mem_pyDedupAux xs acc a]
      constructor
      · rintro (h | h)
        · exact Or.inl h
        · exact Or.inr (List.mem_cons_of_mem x h)
      · rintro (h | h)
        · exact Or.inl h
        · rcases List.mem_cons.mp h with rfl | h
          · exact Or.inl hx
          · exact Or.inr h
    · rw [pyDedupAux, if_neg hx, mem_pyDedupAux xs (acc ++ [x]) a]
      simp only [List.mem_append, List.mem_singleton, List.mem_cons]
      tauto

theorem mem_pyDedup (l : List String) (a : String) : a ∈ pyDedup l ↔ a ∈ l := by
  rw [pyDedup, mem_pyDedupAux]
  simp

theorem pyDedupAux_head : ∀ (l acc : List String), acc ≠ [] →
    (pyDedupAux acc l).head? = acc.head?
  | [], _, _ => rfl
  | x :: xs, acc, h => by
    by_cases hx : x ∈ acc
    · rw [pyDedupAux, if_pos hx]
      exact pyDedupAux_head xs acc h
    · rw [pyDedupAux, if_neg hx, pyDedupAux_head xs (acc ++ [x]) (by simp)]
      cases acc with
      | nil => exact absurd rfl h
      | cons b t => simp

theorem pyDedup_cons_head (x : String) (t : List String) :
    (pyDedup (x :: t)).head? = some x := by
  rw [pyDedup, pyDedupAux, if_neg (List.not_mem_nil x), List.nil_append,
    pyDedupAux_head t [x] (by simp)]
  rfl

/-! ## Helper lemmas about `splitlines` -/

theorem splitlinesAux_cons_nl (rest acc : List Char) :
    splitlinesAux ('\n' :: rest) acc false = acc.reverse :: splitlinesAux rest [] false := by
  rw [splitlinesAux]
  simp

theorem splitlinesAux_true_of_head (l : List Char) (h : l.head? ≠ some '\n') :
    splitlinesAux l [] true = splitlinesAux l [] false := by
  cases l with
  | nil => rfl
  | cons c rest =>
    have hc : c ≠ '\n' := by
      intro hceq
      exact h (by rw [hceq, List.head?_cons])
    rw [splitlinesAux, splitlinesAux]
    simp [hc]

theorem splitlinesAux_cons_cr_nl (rest acc : List Char) :
    splitlinesAux ('\r' :: '\n' :: rest) acc false = acc.reverse :: splitlinesAux rest [] false := by
  rw [splitlinesAux]
  simp
  rw [splitlinesAux]
  simp

theorem splitlinesAux_cons_cr (rest acc : List Char) (h : rest.head? ≠ some '\n') :
    splitlinesAux ('\r' :: rest) acc false = acc.reverse :: splitlinesAux rest [] false := by
  rw [splitlinesAux, splitlinesAux_true_of_head rest h]
  simp

theorem splitlinesAux_cons_other (c : Char) (rest acc : List Char)
    (h1 : c ≠ '\n') (h2 : c ≠ '\r') :
    splitlinesAux (c :: rest) acc false = splitlinesAux rest (c :: acc) false := by
  rw [splitlinesAux]
  simp [h1, h2]

/-- On a chunk with no line-break characters the splitter just accumulates. -/
theorem splitlinesAux_nolb : ∀ (l acc : List Char), (∀ c ∈ l, c ≠ '\n' ∧ c ≠ '\r') →
    splitlinesAux l acc false = if acc.reverse ++ l = [] then [] else [acc.reverse ++ l]
  | [], acc, _ => by
    rw [splitlinesAux]
    rcases acc with _ | ⟨c, t⟩ <;> simp
  | c :: rest, acc, h => by
    have hc := h c (List.mem_cons_self c rest)
    rw [splitlinesAux_cons_other c rest acc hc.1 hc.2,
      splitlinesAux_nolb rest (c :: acc) (fun d hd => h d (List.mem_cons_of_mem c hd))]
    simp

theorem pySplitlines_single (s : String) (h : ∀ c ∈ s.toList, c ≠ '\n' ∧ c ≠ '\r')
    (hne : s ≠ "") : pySplitlines s = [s] := by
  have hl : s.toList ≠ [] := fun hnil => hne (by
    cases s with
    | mk data => simpa [String.toList] using congrArg String.mk hnil)
  rw [pySplitlines, splitlinesAux_nolb s.toList [] h]
  simp only [List.reverse_nil, List.nil_append]
  rw [if_neg hl]
  simp [String.toList]

/-- A `\n` after a break-free chunk closes the line the accumulator holds. -/
theorem splitlinesAux_newline : ∀ (L M acc : List Char), (∀ c ∈ L, c ≠ '\n' ∧ c ≠ '\r') →
    splitlinesAux (L ++ '\n' :: M) acc false = (acc.reverse ++ L) :: splitlinesAux M [] false
  | [], M, acc, _ => by
    rw [List.nil_append, splitlinesAux_cons_nl]
    simp
  | c :: L', M, acc, h => by
    have hc := h c (List.mem_cons_self c L')
    rw [List.cons_append, splitlinesAux_cons_other c _ acc hc.1 hc.2,
      splitlinesAux_newline L' M (c :: acc) (fun d hd => h d (List.mem_cons_of_mem c hd))]
    simp

theorem toList_append_newline (a b : String) :
    (a ++ "\n" ++ b).toList = a.toList ++ '\n' :: b.toList := by
  show (a ++ "\n" ++ b).data = a.data ++ '\n' :: b.data
  rw [String.data_append, String.data_append, List.append_assoc]
  rfl

theorem pySplitlines_two (a b : String)
    (ha : ∀ c ∈ a.toList, c ≠ '\n' ∧ c ≠ '\r')
    (hb : ∀ c ∈ b.toList, c ≠ '\n' ∧ c ≠ '\r') (hbne : b ≠ "") :
    pySplitlines (a ++ "\n" ++ b) = [a, b] := by
  have hbl : b.toList ≠ [] := fun hnil => hbne (by
    cases b with
    | mk data => simpa [String.toList] using congrArg String.mk hnil)
  rw [pySplitlines, toList_append_newline, splitlinesAux_newline a.toList b.toList [] ha,
    splitlinesAux_nolb b.toList [] hb]
  simp only [List.reverse_nil, List.nil_append]
  rw [if_neg hbl]
  simp [String.toList]

/-- Splitting distributes over an explicit `\n` separator. -/
theorem splitlinesAux_append_newline : ∀ (L M acc : List Char),
    splitlinesAux (L ++ '\n' :: M) acc false
      = splitlinesAux (L ++ ['\n']) acc false ++ splitlinesAux M [] false
  | [], M, acc => by
    simp only [List.nil_append]
    rw [splitlinesAux_cons_nl, splitlinesAux_cons_nl]
    simp [splitlinesAux]
  | c :: L', M, acc => by
    by_cases hn : c = '\n'
    · subst hn
      simp only [List.cons_append]
      rw [splitlinesAux_cons_nl, splitlinesAux_cons_nl, splitlinesAux_append_newline L' M []]
      simp
    · by_cases hr : c = '\r'
      · subst hr
        rcases L' with _ | ⟨d, L''⟩
        · simp only [List.cons_append, List.nil_append]
          rw [splitlinesAux_cons_cr_nl, splitlinesAux_cons_cr_nl]
          simp [splitlinesAux]
        · by_cases hd : d = '\n'
          · subst hd
            simp only [List.cons_append]
            rw [splitlinesAux_cons_cr_nl, splitlinesAux_cons_cr_nl,
              splitlinesAux_append_newline L'' M []]
            simp
          · simp only [List.cons_append]
            rw [splitlinesAux_cons_cr (d :: (L'' ++ '\n' :: M)) acc (by simp [hd]),
              splitlinesAux_cons_cr (d :: (L'' ++ ['\n'])) acc (by simp [hd])]
            have hrec := splitlinesAux_append_newline (d :: L'') M []
            simp only [List.cons_append] at hrec
            rw [hrec]
            simp
      · simp only [List.cons_append]
        rw [splitlinesAux_cons_other c _ _ hn hr, splitlinesAux_cons_other c _ _ hn hr,
          splitlinesAux_append_newline L' M (c :: acc)]
termination_by L _ _ => L.length
decreasing_by all_goals simp_arith

/-- Closing the input with a `\n` only flushes the last pending line: the
previous lines are unchanged. -/
theorem splitlinesAux_flush : ∀ (L acc : List Char),
    ∃ t, splitlinesAux (L ++ ['\n']) acc false = splitlinesAux L acc false ++ t
  | [], acc => by
    rcases acc with _ | ⟨c, t⟩
    · exact ⟨[[]], by rw [List.nil_append, splitlinesAux_cons_nl]; simp [splitlinesAux]⟩
    · exact ⟨[], by rw [List.nil_append, splitlinesAux_cons_nl]; simp [splitlinesAux]⟩
  | c :: L', acc => by
    by_cases hn : c = '\n'
    · subst hn
      obtain ⟨t, ht⟩ := splitlinesAux_flush L' []
      refine ⟨t, ?_⟩
      simp only [List.cons_append]
      rw [splitlinesAux_cons_nl, splitlinesAux_cons_nl, ht]
      simp
    · by_cases hr : c = '\r'
      · subst hr
        rcases L' with _ | ⟨d, L''⟩
        · refine ⟨[], ?_⟩
          simp only [List.cons_append, List.nil_append]
          rw [splitlinesAux_cons_cr_nl, splitlinesAux_cons_cr [] acc (by simp)]
          simp [splitlinesAux]
        · by_cases hd : d = '\n'
          · subst hd
            obtain ⟨t, ht⟩ := splitlinesAux_flush L'' []
            refine ⟨t, ?_⟩
            simp only [List.cons_append]
            rw [splitlinesAux_cons_cr_nl, splitlinesAux_cons_cr_nl, ht]
            simp
          · obtain ⟨t, ht⟩ := splitlinesAux_flush (d :: L'') []
            refine ⟨t, ?_⟩
            simp only [List.cons_append]
            rw [splitlinesAux_cons_cr (d :: (L'' ++ ['\n'])) acc (by simp [hd]),
              splitlinesAux_cons_cr (d :: L'') acc (by simp [hd])]
            have hrec := ht
            simp only [List.cons_append] at hrec
            rw [hrec]
            simp
      · obtain ⟨t, ht⟩ := splitlinesAux_flush L' (c :: acc)
        refine ⟨t, ?_⟩
        simp only [List.cons_append]
        rw [splitlinesAux_cons_other c _ _ hn hr, splitlinesAux_cons_other c _ _ hn hr, ht]
termination_by L _ => L.length
decreasing_by all_goals simp_arith

/-- Every line of `a` is a line of `a ++ "\n" ++ b`. -/
theorem mem_pySplitlines_append (a b : String) (line : String)
    (h : line ∈ pySplitlines a) : line ∈ pySplitlines (a ++ "\n" ++ b) := by
  obtain ⟨t, ht⟩ := splitlinesAux_flush a.toList []
  rw [pySplitlines, toList_append_newline, splitlinesAux_append_newline a.toList b.toList [], ht]
  rw [pySplitlines] at h
  simp only [List.map_append, List.mem_append]
  exact Or.inl (Or.inl h)

/-! ## Helper lemmas about the co-author trailer matcher -/

theorem takeWhile_append_of_all {α : Type} {p : α → Bool} (l1 l2 : List α)
    (h : ∀ x ∈ l1, p x = true) :
    (l1 ++ l2).takeWhile p = l1 ++ l2.takeWhile p := by
  rw [List.takeWhile_append, if_pos]
  rw [List.takeWhile_eq_self_iff.mpr h]

theorem dropWhile_append_of_all {α : Type} {p : α → Bool} (l1 l2 : List α)
    (h : ∀ x ∈ l1, p x = true) :
    (l1 ++ l2).dropWhile p = l2.dropWhile p := by
  rw [List.dropWhile_append, if_pos]
  rw [List.isEmpty_iff, List.dropWhile_eq_nil_iff]
  exact h

theorem dropWhile_append_of_ne_nil {α : Type} {p : α → Bool} (l1 l2 : List α)
    (h : l1.dropWhile p ≠ []) :
    (l1 ++ l2).dropWhile p = l1.dropWhile p ++ l2 := by
  rw [List.dropWhile_append, if_neg]
  simpa [List.isEmpty_iff] using h

theorem dropWhile_head_false {α : Type} {p : α → Bool} :
    ∀ {l : List α} {c : α} {t : List α}, l.dropWhile p = c :: t → p c = false
  | [], _, _, h => by simp at h
  | a :: l', c, t, h => by
    rw [List.dropWhile_cons] at h
    by_cases ha : p a
    · rw [if_pos ha] at h
      exact dropWhile_head_false h
    · rw [if_neg ha] at h
      cases h
      simpa using ha

theorem stripPre_append : ∀ (p t : List Char), stripPre p (p ++ t) = some t
  | [], t => rfl
  | a :: p', t => by
    rw [List.cons_append, stripPre, if_pos rfl]
    exact stripPre_append p' t

theorem coSearch_of_stripPre (l tail : List Char) (r : String × String)
    (hs : stripPre coPattern l = some tail) (hm : coMatchAt tail = some r) :
    coSearch l = some r := by
  cases l with
  | nil => simp [stripPre, coPattern] at hs
  | cons c rest =>
    rw [coSearch, hs]
    simp [hm]

/-- The full-line decomposition of a well-formed trailer string. -/
theorem trailer_toList (name email : String) :
    ("Co-authored-by: " ++ name ++ " <" ++ email ++ ">").toList =
      coPattern ++ (' ' :: (name.toList ++ (' ' :: '<' :: (email.toList ++ ['>'])))) := by
  show ("Co-authored-by: " ++ name ++ " <" ++ email ++ ">").data =
    coPattern ++ (' ' :: (name.data ++ (' ' :: '<' :: (email.data ++ ['>']))))
  rw [String.data_append, String.data_append, String.data_append, String.data_append]
  rw [show "Co-authored-by: ".data = coPattern ++ [' '] from rfl]
  simp [List.append_assoc]

/-- `coMatchAt` on the tail of a well-formed trailer: the first group is the
name chunk (after the whitespace skip) up to the `<`, which includes the
separating blank; the second group is the email exactly. -/
theorem coMatchAt_trailer (name email : String)
    (hn : ∀ c ∈ name.toList, c ≠ '<')
    (he : ∀ c ∈ email.toList, c ≠ '>') (hene : email.toList ≠ []) :
    coMatchAt (' ' :: (name.toList ++ (' ' :: '<' :: (email.toList ++ ['>'])))) =
      some (⟨if name.toList.dropWhile isPySpace = [] then []
             else name.toList.dropWhile isPySpace ++ [' ']⟩, email) := by
  have hsp : isPySpace ' ' = true := rfl
  have hq : ∀ c ∈ email.toList, (fun c => !(c = '>')) c = true := by
    intro c hc
    simpa using he c hc
  have hg2take : (email.toList ++ ['>']).takeWhile (fun c => !(c = '>')) = email.toList := by
    rw [takeWhile_append_of_all _ _ hq]
    simp [List.takeWhile_cons]
  have hg2drop : (email.toList ++ ['>']).dropWhile (fun c => !(c = '>')) = ['>'] := by
    rw [dropWhile_append_of_all _ _ hq]
    simp [List.dropWhile_cons]
  have hEmp : email.toList.isEmpty = false := by
    simpa [List.isEmpty_iff] using hene
  have ht1 : ('<' :: (email.toList ++ ['>'])).takeWhile (fun c => !(c = '<')) = [] := by
    rw [List.takeWhile_cons, if_neg (by decide)]
  have hd1 : ('<' :: (email.toList ++ ['>'])).dropWhile (fun c => !(c = '<'))
      = '<' :: (email.toList ++ ['>']) := by
    rw [List.dropWhile_cons, if_neg (by decide)]
  by_cases hS : name.toList.dropWhile isPySpace = []
  · have hall : ∀ x ∈ name.toList, isPySpace x = true := List.dropWhile_eq_nil_iff.mp hS
    have hdrop : (' ' :: (name.toList ++ (' ' :: '<' :: (email.toList ++ ['>'])))).dropWhile
        isPySpace = '<' :: (email.toList ++ ['>']) := by
      rw [List.dropWhile_cons, if_pos hsp, dropWhile_append_of_all _ _ hall,
        List.dropWhile_cons, if_pos hsp, List.dropWhile_cons, if_neg (by decide)]
    simp only [coMatchAt]
    rw [hdrop, ht1, hd1, List.head?_cons, if_pos rfl, List.tail_cons, hg2take, hg2drop, hEmp,
      if_neg (by decide), List.head?_cons, if_pos rfl, if_pos hS]
    rfl
  · have hdrop1 : (' ' :: (name.toList ++ (' ' :: '<' :: (email.toList ++ ['>'])))).dropWhile
        isPySpace = name.toList.dropWhile isPySpace ++ (' ' :: '<' :: (email.toList ++ ['>'])) := by
      rw [List.dropWhile_cons, if_pos hsp, dropWhile_append_of_ne_nil _ _ hS]
    have hsub : ∀ x ∈ name.toList.dropWhile isPySpace ++ [' '],
        (fun c => !(c = '<')) x = true := by
      intro x hx
      rcases List.mem_append.mp hx with hx | hx
      · have := hn x ((List.dropWhile_sublist isPySpace).subset hx)
        simpa using this
      · rw [List.mem_singleton] at hx
        subst hx
        decide
    have hshape : name.toList.dropWhile isPySpace ++ (' ' :: '<' :: (email.toList ++ ['>']))
        = (name.toList.dropWhile isPySpace ++ [' ']) ++ ('<' :: (email.toList ++ ['>'])) := by
      simp
    have htake1 : ((name.toList.dropWhile isPySpace ++ [' ']) ++
        ('<' :: (email.toList ++ ['>']))).takeWhile (fun c => !(c = '<'))
        = name.toList.dropWhile isPySpace ++ [' '] := by
      rw [takeWhile_append_of_all _ _ hsub, ht1, List.append_nil]
    have hdrop2 : ((name.toList.dropWhile isPySpace ++ [' ']) ++
        ('<' :: (email.toList ++ ['>']))).dropWhile (fun c => !(c = '<'))
        = '<' :: (email.toList ++ ['>']) := by
      rw [dropWhile_append_of_all _ _ hsub, hd1]
    simp only [coMatchAt]
    rw [hdrop1, hshape, htake1, hdrop2, List.head?_cons, if_pos rfl, List.tail_cons,
      hg2take, hg2drop, hEmp, if_neg (by decide), List.head?_cons, if_pos rfl, if_neg hS]
    rfl

/-- The per-line extraction on a well-formed trailer yields exactly the
formatted identity of the stripped name and email. -/
theorem coAuthorLine_trailer (name email : String)
    (hn : ∀ c ∈ name.toList, c ≠ '<' ∧ c ≠ '\n' ∧ c ≠ '\r')
    (he : ∀ c ∈ email.toList, c ≠ '>' ∧ c ≠ '\n' ∧ c ≠ '\r')
    (hene : email ≠ "") :
    coAuthorLine ("Co-authored-by: " ++ name ++ " <" ++ email ++ ">") =
      some (coAuthorIdentity (pyStrip name) (pyStrip email)) := by
  have hE : email.toList ≠ [] := fun hnil => hene (by
    cases email with
    | mk data => simpa [String.toList] using congrArg String.mk hnil)
  have hsp : isPySpace ' ' = true := rfl
  have hmatch := coMatchAt_trailer name email (fun c hc => (hn c hc).1) (fun c hc => (he c hc).1) hE
  have hstrip : pyStrip ⟨if name.toList.dropWhile isPySpace = [] then []
      else name.toList.dropWhile isPySpace ++ [' ']⟩ = pyStrip name := by
    by_cases hS : name.toList.dropWhile isPySpace = []
    · rw [if_pos hS, pyStrip, pyStrip]
      congr 1
      rw [show (String.mk [] : String).toList = ([] : List Char) from rfl, hS]
      simp
    · rw [if_neg hS]
      obtain ⟨c₀, S', hcons⟩ : ∃ c₀ S', name.toList.dropWhile isPySpace = c₀ :: S' := by
        rcases h : name.toList.dropWhile isPySpace with _ | ⟨a, b⟩
        · exact absurd h hS
        · exact ⟨a, b, rfl⟩
      have hc₀ : isPySpace c₀ = false := dropWhile_head_false hcons
      rw [pyStrip, pyStrip]
      congr 1
      rw [show (String.mk (name.toList.dropWhile isPySpace ++ [' '])).toList
          = name.toList.dropWhile isPySpace ++ [' '] from rfl]
      rw [hcons, List.cons_append, List.dropWhile_cons, if_neg (by simp [hc₀]),
        ← List.cons_append, ← hcons, List.reverse_append]
      rw [show ([' '] : List Char).reverse = [' '] from rfl, List.singleton_append,
        List.dropWhile_cons, if_pos hsp]
  rw [coAuthorLine, trailer_toList,
    coSearch_of_stripPre _ _ _ (stripPre_append coPattern _) hmatch, Option.map_some']
  simp only [hstrip]

/-- A well-formed trailer line contains no line-break character. -/
theorem trailer_chars (name email : String)
    (hn : ∀ c ∈ name.toList, c ≠ '<' ∧ c ≠ '\n' ∧ c ≠ '\r')
    (he : ∀ c ∈ email.toList, c ≠ '>' ∧ c ≠ '\n' ∧ c ≠ '\r') :
    ∀ c ∈ ("Co-authored-by: " ++ name ++ " <" ++ email ++ ">").toList,
      c ≠ '\n' ∧ c ≠ '\r' := by
  rw [trailer_toList]
  intro c hc
  rcases List.mem_append.mp hc with hc | hc
  · exact (by decide : ∀ c ∈ coPattern, c ≠ '\n' ∧ c ≠ '\r') c hc
  · rcases List.mem_cons.mp hc with rfl | hc
    · exact ⟨by decide, by decide⟩
    · rcases List.mem_append.mp hc with hc | hc
      · exact ⟨(hn c hc).2.1, (hn c hc).2.2⟩
      · rcases List.mem_cons.mp hc with rfl | hc
        · exact ⟨by decide, by decide⟩
        · rcases List.mem_cons.mp hc with rfl | hc
          · exact ⟨by decide, by decide⟩
          · rcases List.mem_append.mp hc with hc | hc
            · exact ⟨(he c hc).2.1, (he c hc).2.2⟩
            · obtain rfl := List.mem_singleton.mp hc
              exact ⟨by decide, by decide⟩

/-- A well-formed trailer line is nonempty. -/
theorem trailer_ne_empty (name email : String) :
    ("Co-authored-by: " ++ name ++ " <" ++ email ++ ">") ≠ "" := by
  intro h
  have : ("Co-authored-by: " ++ name ++ " <" ++ email ++ ">").toList = [] := by
    rw [h]
    rfl
  rw [trailer_toList] at this
  exact absurd this (by simp [coPattern])

/-! ## Helper lemmas about the commit-hash regex -/

theorem takeWhile_hex_token (tok post : List Char) (hhex : ∀ c ∈ tok, isHexLower c = true) :
    (tok ++ ':' :: post).takeWhile isHexLower = tok := by
  rw [takeWhile_append_of_all _ _ hhex, List.takeWhile_cons, if_neg (by decide)]
  simp

theorem drop_token_colon (tok post : List Char) :
    (tok ++ ':' :: post).drop tok.length = ':' :: post :=
  List.drop_left tok (':' :: post)

theorem drop_length_takeWhile {α : Type} (p : α → Bool) : ∀ l : List α,
    l.drop (l.takeWhile p).length = l.dropWhile p
  | [] => rfl
  | a :: l => by
    rw [List.takeWhile_cons, List.dropWhile_cons]
    by_cases h : p a
    · rw [if_pos h, if_pos h, List.length_cons, List.drop_succ_cons]
      exact drop_length_takeWhile p l
    · rw [if_neg h, if_neg h]
      simp

/-- Soundness of the hash scanner, with leftmost-match minimality: a
returned token is a hex run of 7 to 40 characters followed by a colon, at
the earliest start position allowing such a token. -/
theorem hashMatch_eq_some : ∀ (l : List Char) (s : String), hashMatch l = some s →
    ∃ pre tok post, s = ⟨tok⟩ ∧ l = pre ++ tok ++ ':' :: post ∧
      7 ≤ tok.length ∧ tok.length ≤ 40 ∧ (∀ c ∈ tok, isHexLower c = true) ∧
      ∀ pre' tok' post', l = pre' ++ tok' ++ ':' :: post' →
        7 ≤ tok'.length → tok'.length ≤ 40 → (∀ c ∈ tok', isHexLower c = true) →
        pre.length ≤ pre'.length
  | [], s, h => by simp [hashMatch] at h
  | c :: rest, s, h => by
    rw [hashMatch] at h
    by_cases hcond : (7 ≤ ((c :: rest).takeWhile isHexLower).length &&
        ((c :: rest).takeWhile isHexLower).length ≤ 40 &&
        ((c :: rest).drop ((c :: rest).takeWhile isHexLower).length).head? = some ':') = true
    · rw [if_pos hcond] at h
      simp only [Bool.and_eq_true, decide_eq_true_eq] at hcond
      obtain ⟨⟨h7, h40⟩, hcolon⟩ := hcond
      have hsplit : c :: rest = (c :: rest).takeWhile isHexLower
          ++ (c :: rest).dropWhile isHexLower := (List.takeWhile_append_dropWhile ..).symm
      rw [drop_length_takeWhile isHexLower (c :: rest)] at hcolon
      obtain ⟨post, hpost⟩ : ∃ post, (c :: rest).dropWhile isHexLower = ':' :: post := by
        rcases hD : (c :: rest).dropWhile isHexLower with _ | ⟨d, t⟩
        · rw [hD] at hcolon
          simp at hcolon
        · rw [hD] at hcolon
          rw [List.head?_cons, Option.some.injEq] at hcolon
          exact ⟨t, by rw [hcolon]⟩
      refine ⟨[], (c :: rest).takeWhile isHexLower, post, by injection h with h'; exact h'.symm,
        ?_, h7, h40, fun x hx => List.mem_takeWhile_imp hx, ?_⟩
      · rw [List.nil_append]
        conv_lhs => rw [hsplit, hpost]
      · intro pre' tok' post' _ _ _ _
        simp
    · rw [if_neg hcond] at h
      obtain ⟨pre₁, tok, post, hs, hl, h7, h40, hhex, hmin⟩ := hashMatch_eq_some rest s h
      refine ⟨c :: pre₁, tok, post, hs, by rw [hl]; simp, h7, h40, hhex, ?_⟩
      intro pre' tok' post' hl' h7' h40' hhex'
      cases pre' with
      | nil =>
        exfalso
        apply hcond
        rw [List.nil_append] at hl'
        have hrun : (c :: rest).takeWhile isHexLower = tok' := by
          rw [hl']
          exact takeWhile_hex_token tok' post' hhex'
        have hdrop' : (c :: rest).drop ((c :: rest).takeWhile isHexLower).length
            = ':' :: post' := by
          rw [hrun, hl']
          exact drop_token_colon tok' post'
        rw [hdrop', hrun]
        simp [h7', h40']
      | cons c' pre'' =>
        rw [List.cons_append, List.cons_append] at hl'
        injection hl' with hceq hrest
        simp only [List.length_cons, Nat.succ_le_succ_iff]
        exact hmin pre'' tok' post' hrest h7' h40' hhex'

/-- Completeness of the hash scanner: any hex run of 7 to 40 characters
immediately followed by a colon makes the line match. -/
theorem hashMatch_isSome_of_token : ∀ (pre tok post : List Char),
    7 ≤ tok.length → tok.length ≤ 40 → (∀ c ∈ tok, isHexLower c = true) →
    (hashMatch (pre ++ tok ++ ':' :: post)).isSome
  | [], tok, post, h7, h40, hhex => by
    rcases tok with _ | ⟨t0, t'⟩
    · simp at h7
    · rw [List.nil_append]
      have hrun : ((t0 :: t') ++ ':' :: post).takeWhile isHexLower = t0 :: t' :=
        takeWhile_hex_token _ _ hhex
      have hdrop := drop_token_colon (t0 :: t') post
      rw [List.cons_append, hashMatch]
      rw [List.cons_append] at hrun hdrop
      rw [if_pos (by
        rw [hrun, hdrop]
        simp only [List.length_cons] at h7 h40
        simp [h7, h40])]
      simp
  | p :: pre', tok, post, h7, h40, hhex => by
    rw [List.cons_append, List.cons_append, hashMatch]
    split
    · simp
    · have := hashMatch_isSome_of_token pre' tok post h7 h40 hhex
      simpa using this

theorem length_filterMap_eq_length_filter {α β : Type} (f : α → Option β) :
    ∀ l : List α, (l.filterMap f).length = (l.filter (fun x => (f x).isSome)).length
  | [] => rfl
  | a :: l => by
    rcases ha : f a with _ | b
    · rw [List.filterMap_cons_none ha, List.filter_cons_of_neg (by simp [ha])]
      exact length_filterMap_eq_length_filter f l
    · rw [List.filterMap_cons_some ha, List.filter_cons_of_pos (by simp [ha])]
      simp only [List.length_cons]
      rw [length_filterMap_eq_length_filter f l]

theorem releaseNoteEntries_eq_map (resolve : String → Option PRInfo) (changeset : String) :
    releaseNoteEntries resolve changeset
      = (processedHashes changeset).map (fun h => renderEntry h (resolve h)) := by
  rw [releaseNoteEntries, processedHashes, List.map_filterMap]

/-! ## Structural lemmas about the resolver step -/

theorem strategy3_calls (env : Env) (hash a : String) (b : List String) :
    (strategy3 env hash a b).calls = [ApiCall.getCommitPulls hash] := by
  rcases hp : env.pulls with items | reset | _ | _ <;> simp only [strategy3, hp]
  · rcases items with _ | ⟨i0, rest⟩ <;> rfl
  · by_cases hw : reset - env.now > 0 <;> simp [hw]

theorem mem_searchIssues_strategy2 (env : Env) (hash a : String) (b : List String) :
    ApiCall.searchIssues hash ∈ (strategy2 env hash a b).calls := by
  rcases hs : env.search with items | reset | _ | _ <;>
    simp only [strategy2, hs, StepResult.withPre]
  · rcases hfil : items.filter (fun it => !(isReleasePR it.title)) with _ | ⟨item, rest⟩ <;>
      simp only [hfil]
    · simp
    · rcases hd : env.prDetail (toString item.number) with detail | _ | _ <;> simp [hd]
  · by_cases hw : reset - env.now > 0 <;> simp [hw]
  · simp
  · simp

theorem mem_getCommitPulls_strategy2_iff (env : Env) (hash a : String) (b : List String) :
    ApiCall.getCommitPulls hash ∈ (strategy2 env hash a b).calls ↔
      searchFindsNoPR env = true := by
  rcases hs : env.search with items | reset | _ | _ <;>
    simp only [strategy2, searchFindsNoPR, hs, StepResult.withPre]
  · rcases hfil : items.filter (fun it => !(isReleasePR it.title)) with _ | ⟨item, rest⟩ <;>
      simp only [hfil]
    · simp [strategy3_calls]
    · rcases hd : env.prDetail (toString item.number) with detail | _ | _ <;>
        simp [hd, strategy3_calls]
  · by_cases hw : reset - env.now > 0 <;> simp [hw, strategy3_calls] <;> omega
  · simp [strategy3_calls]
  · simp

/-- A rate-limited search whose clamped wait is positive makes strategy 2
retry with exactly that wait. -/
theorem strategy2_rateLimited_retry (env : Env) (hash a : String) (b : List String)
    (reset : Nat) (hs : env.search = .rateLimited reset) (hw : env.now < reset) :
    (strategy2 env hash a b).outcome = .retry (reset - env.now) := by
  simp only [strategy2, hs]
  rw [if_pos (Nat.sub_pos_of_lt hw)]

/-- When the search yields nothing, strategy 2's outcome is strategy 3's. -/
theorem strategy2_outcome_falls (env : Env) (hash a : String) (b : List String)
    (h2 : searchFindsNoPR env = true) :
    (strategy2 env hash a b).outcome = (strategy3 env hash a b).outcome := by
  rw [searchFindsNoPR] at h2
  rcases hs : env.search with items | reset | _ | _ <;>
    simp only [hs] at h2 <;>
    simp only [strategy2, hs, StepResult.withPre]
  · rcases hfil : items.filter (fun it => !(isReleasePR it.title)) with _ | ⟨item, rest⟩ <;>
      simp only [hfil] at h2 <;> simp only [hfil]
    simp only [decide_eq_true_eq] at h2
    simp only [h2]
  · simp only [decide_eq_true_eq] at h2
    rw [if_neg (by omega)]
  · exact absurd h2 (by simp)

/-- A rate-limited fallback request with positive clamped wait makes
strategy 3 retry with exactly that wait. -/
theorem strategy3_rateLimited_retry (env : Env) (hash a : String) (b : List String)
    (reset : Nat) (hp : env.pulls = .rateLimited reset) (hw : env.now < reset) :
    (strategy3 env hash a b).outcome = .retry (reset - env.now) := by
  simp only [strategy3, hp]
  rw [if_pos (Nat.sub_pos_of_lt hw)]

/-- A rate-limited fallback request whose reset is not in the future reaches
`raise_for_status`: the error result is returned, with no retry. -/
theorem strategy3_rateLimited_zero (env : Env) (hash a : String) (b : List String)
    (reset : Nat) (hp : env.pulls = .rateLimited reset) (hw : reset ≤ env.now) :
    (strategy3 env hash a b).outcome = .result none := by
  simp only [strategy3, hp]
  rw [if_neg (by omega)]

/-- With the commit fetched and no usable `#number` reference, the step is
strategy 2 prefixed by the calls and prints made so far. -/
theorem stepResolve_no_ref (env : Env) (hash repo : String) (d : CommitData)
    (hc : env.commit = .ok d) (hm : prRefMatch ((d.message.getD "").toList) = none) :
    stepResolve env hash repo =
      (strategy2 env hash (commitAuthorOf d) (coAuthorsOf (d.message.getD ""))).withPre
        [] [ApiCall.getCommit hash] := by
  simp only [stepResolve, hc]
  rw [hm]

/-- With a `#number` reference whose PR-detail fetch fails with a non-200
status, the step falls through to strategy 2. -/
theorem stepResolve_ref_badStatus (env : Env) (hash repo : String) (d : CommitData) (n : String)
    (hc : env.commit = .ok d) (hm : prRefMatch ((d.message.getD "").toList) = some n)
    (hd : env.prDetail n = .badStatus) :
    stepResolve env hash repo =
      (strategy2 env hash (commitAuthorOf d) (coAuthorsOf (d.message.getD ""))).withPre
        [s!"Found PR reference #{n} in commit message"]
        [ApiCall.getCommit hash, ApiCall.getPr n] := by
  simp only [stepResolve, hc]
  rw [hm]
  simp only [hd]

/-- With a `#number` reference whose PR-detail fetch returns 200, the step
returns that PR and stops. -/
theorem stepResolve_ref_ok (env : Env) (hash repo : String) (d : CommitData) (n : String)
    (detail : PrDetail) (hc : env.commit = .ok d)
    (hm : prRefMatch ((d.message.getD "").toList) = some n)
    (hd : env.prDetail n = .ok detail) :
    stepResolve env hash repo =
      ⟨.result (some ⟨some n, detail.body, some (prAuthorOf detail.user_login),
          commitAuthorOf d, coAuthorsOf (d.message.getD "")⟩),
        [s!"Found PR reference #{n} in commit message"],
        [ApiCall.getCommit hash, ApiCall.getPr n]⟩ := by
  simp only [stepResolve, hc]
  rw [hm]
  simp only [hd]

/-- With a `#number` reference whose PR-detail fetch raises, the step
returns the error result. -/
theorem stepResolve_ref_netError (env : Env) (hash repo : String) (d : CommitData) (n : String)
    (hc : env.commit = .ok d) (hm : prRefMatch ((d.message.getD "").toList) = some n)
    (hd : env.prDetail n = .netError) :
    stepResolve env hash repo =
      ⟨.result none, [s!"Found PR reference #{n} in commit message"] ++ [errPrint env],
        [ApiCall.getCommit hash, ApiCall.getPr n]⟩ := by
  simp only [stepResolve, hc]
  rw [hm]
  simp only [hd]

/-- Strategy 1 finding nothing always leads to strategy 2, and the calls
made before strategy 2 are never the search or the fallback endpoint. -/
theorem stepResolve_strategy1_none (env : Env) (hash repo : String) (d : CommitData)
    (hc : env.commit = .ok d) (h1 : strategy1FindsNoPR env d = true) :
    ∃ ps cs, stepResolve env hash repo =
      (strategy2 env hash (commitAuthorOf d) (coAuthorsOf (d.message.getD ""))).withPre ps cs
      ∧ ApiCall.searchIssues hash ∉ cs ∧ ApiCall.getCommitPulls hash ∉ cs := by
  rw [strategy1FindsNoPR] at h1
  rcases hm : prRefMatch ((d.message.getD "").toList) with _ | n
  · exact ⟨_, _, stepResolve_no_ref env hash repo d hc hm, by simp, by simp⟩
  · rw [hm] at h1
    simp only [decide_eq_true_eq] at h1
    exact ⟨_, _, stepResolve_ref_badStatus env hash repo d n hc hm h1, by simp, by simp⟩

/-! ## Claim theorems -/

/-- C1: PR resolution tries the three strategies in order, stopping at the
first success.  If the commit message carries a `#number` token and the
PR-detail fetch for it returns 200, the resolver issues exactly the commit
fetch and that PR fetch — never the search query or the fallback endpoint —
and returns that PR's body and author.  The search query is issued exactly
when strategy 1 yields nothing, and the fallback endpoint exactly when, in
addition, the search yields nothing. -/
theorem c1_strategy_order (env : Env) (hash repo : String) :
    (∀ d n detail, env.commit = .ok d →
      prRefMatch ((d.message.getD "").toList) = some n →
      env.prDetail n = .ok detail →
      stepResolve env hash repo =
        ⟨.result (some ⟨some n, detail.body, some (prAuthorOf detail.user_login),
            commitAuthorOf d, coAuthorsOf (d.message.getD "")⟩),
          [s!"Found PR reference #{n} in commit message"],
          [ApiCall.getCommit hash, ApiCall.getPr n]⟩)
    ∧ (ApiCall.searchIssues hash ∈ (stepResolve env hash repo).calls ↔
        ∃ d, env.commit = .ok d ∧ strategy1FindsNoPR env d = true)
    ∧ (ApiCall.getCommitPulls hash ∈ (stepResolve env hash repo).calls ↔
        ∃ d, env.commit = .ok d ∧ strategy1FindsNoPR env d = true ∧
          searchFindsNoPR env = true) := by
  refine ⟨?_, ?_, ?_⟩
  · intro d n detail hc hm hd
    exact stepResolve_ref_ok env hash repo d n detail hc hm hd
  · constructor
    · intro hmem
      rcases hc : env.commit with d | _ | _ | _ | _
      case ok =>
        refine ⟨d, rfl, ?_⟩
        rw [strategy1FindsNoPR]
        rcases hm : prRefMatch ((d.message.getD "").toList) with _ | n
        · rfl
        · rcases hd : env.prDetail n with detail | _ | _
          · rw [stepResolve_ref_ok env hash repo d n detail hc hm hd] at hmem
            simp at hmem
          · simp [hd]
          · rw [stepResolve_ref_netError env hash repo d n hc hm hd] at hmem
            simp at hmem
      all_goals simp [stepResolve, hc] at hmem
    · rintro ⟨d, hc, h1⟩
      obtain ⟨ps, cs, hstep, _, _⟩ := stepResolve_strategy1_none env hash repo d hc h1
      rw [hstep]
      simp only [StepResult.withPre, List.mem_append]
      exact Or.inr (mem_searchIssues_strategy2 env hash _ _)
  · constructor
    · intro hmem
      rcases hc : env.commit with d | _ | _ | _ | _
      case ok =>
        have h1 : strategy1FindsNoPR env d = true := by
          rw [strategy1FindsNoPR]
          rcases hm : prRefMatch ((d.message.getD "").toList) with _ | n
          · rfl
          · rcases hd : env.prDetail n with detail | _ | _
            · rw [stepResolve_ref_ok env hash repo d n detail hc hm hd] at hmem
              simp at hmem
            · simp [hd]
            · rw [stepResolve_ref_netError env hash repo d n hc hm hd] at hmem
              simp at hmem
        refine ⟨d, rfl, h1, ?_⟩
        obtain ⟨ps, cs, hstep, _, hnp⟩ := stepResolve_strategy1_none env hash repo d hc h1
        rw [hstep] at hmem
        simp only [StepResult.withPre, List.mem_append] at hmem
        rcases hmem with hmem | hmem
        · exact absurd hmem hnp
        · exact (mem_getCommitPulls_strategy2_iff env hash _ _).mp hmem
      all_goals simp [stepResolve, hc] at hmem
    · rintro ⟨d, hc, h1, h2⟩
      obtain ⟨ps, cs, hstep, _, _⟩ := stepResolve_strategy1_none env hash repo d hc h1
      rw [hstep]
      simp only [StepResult.withPre, List.mem_append]
      exact Or.inr ((mem_getCommitPulls_strategy2_iff env hash _ _).mpr h2)

/-- Witness for C1 at a concrete environment: the message references PR 42,
its detail fetch succeeds, and the resolver performs exactly the two calls. -/
theorem c1_strategy_order_witness :
    stepResolve envMock "abc1234" "saleor/saleor-dashboard" =
      ⟨.result (some ⟨some "42", some "Fixes bug X", some "@bob", "@alice", []⟩),
        ["Found PR reference #42 in commit message"],
        [ApiCall.getCommit "abc1234", ApiCall.getPr "42"]⟩ := by
  have h := (c1_strategy_order envMock "abc1234" "saleor/saleor-dashboard").1
    dMock "42" prMock rfl (by decide) rfl
  rw [h]
  rfl

/-- C2 counterexample: with a search result whose only PR title is
"Release 1.2.0" and a fallback list whose only PR is release-flagged, the
release PR is accepted by force — but the messages printed are exactly the
two progress lines; no diagnostic indicating forced acceptance accompanies
the result, contrary to the claim. -/
theorem c2_release_filter_counterexample :
    stepResolve envForce "abc1234" "o/r" =
      ⟨.result (some ⟨some "9", some "rel body", some "@rel", "@alice", []⟩),
        ["Searching for PRs that mention commit abc1234...",
         "Falling back to commits/pulls endpoint for abc1234..."],
        [ApiCall.getCommit "abc1234", ApiCall.searchIssues "abc1234",
         ApiCall.getCommitPulls "abc1234"]⟩ ∧
    (stepResolve envForce "abc1234" "o/r").prints.length = 2 := by
  constructor <;> rfl

/-- C2 (amended): the release-keyword filter discards every candidate PR
whose title contains `release`, `changeset`, `version bump` or
`bump version` case-insensitively: a search result set of release-flagged
PRs yields no candidate and resolution falls through to the fallback
endpoint, and when every fallback result is also release-flagged the first
one is accepted anyway — with no additional diagnostic: the only messages
printed are the search and falling-back progress lines. -/
theorem c2_release_filter (env : Env) (hash repo : String) (d : CommitData)
    (items : List SearchItem) (p0 : PullItem) (ps : List PullItem)
    (hc : env.commit = .ok d) (hm : prRefMatch ((d.message.getD "").toList) = none)
    (hs : env.search = .ok items) (hsr : ∀ it ∈ items, isReleasePR it.title = true)
    (hp : env.pulls = .ok (p0 :: ps)) (hpr : ∀ it ∈ p0 :: ps, isReleasePR it.title = true) :
    stepResolve env hash repo =
      ⟨.result (some ⟨some (toString p0.number), some (p0.body.getD ""),
          some (prAuthorOf p0.user_login), commitAuthorOf d, coAuthorsOf (d.message.getD "")⟩),
        [s!"Searching for PRs that mention commit {hash}...",
         s!"Falling back to commits/pulls endpoint for {hash}..."],
        [ApiCall.getCommit hash, ApiCall.searchIssues hash, ApiCall.getCommitPulls hash]⟩ := by
  rw [stepResolve_no_ref env hash repo d hc hm]
  have hfil : items.filter (fun it => !(isReleasePR it.title)) = [] :=
    List.filter_eq_nil_iff.mpr (fun a ha => by simp [hsr a ha])
  have hfil2 : (p0 :: ps).filter (fun it => !(isReleasePR it.title)) = [] :=
    List.filter_eq_nil_iff.mpr (fun a ha => by simp [hpr a ha])
  simp only [strategy2, hs, hfil, strategy3, hp, hfil2, StepResult.withPre]
  simp

/-- Witness for C2 at a concrete environment. -/
theorem c2_release_filter_witness :
    stepResolve envForce "abc1234" "saleor/saleor-dashboard" =
      ⟨.result (some ⟨some "9", some "rel body", some "@rel", "@alice", []⟩),
        ["Searching for PRs that mention commit abc1234...",
         "Falling back to commits/pulls endpoint for abc1234..."],
        [ApiCall.getCommit "abc1234", ApiCall.searchIssues "abc1234",
         ApiCall.getCommitPulls "abc1234"]⟩ := by
  have h := c2_release_filter envForce "abc1234" "saleor/saleor-dashboard" dPlain
    [searchRelease] pullRelease [] rfl (by decide) rfl (by decide) rfl (by decide)
  rw [h]
  rfl

/-- C3: the error taxonomy for a single commit. A 404 on the very first
commit lookup returns `None` for that hash with the not-found message; a
transport failure at any of the four requests is caught, the error message
is printed, and `None` is returned; when all three strategies find no PR the
result is a non-`None` record carrying the commit author and co-authors with
the three PR fields null; and the report generator renders one entry per
matched line regardless of what the resolver returned, so processing always
continues over the remaining commits. -/
theorem c3_error_taxonomy (env : Env) (hash repo : String) :
    (env.commit = .notFound →
      stepResolve env hash repo =
        ⟨.result none, [s!"Commit {hash} not found in repository {repo}"],
          [ApiCall.getCommit hash]⟩)
    ∧ (env.commit = .netError →
        (stepResolve env hash repo).outcome = .result none ∧
          errPrint env ∈ (stepResolve env hash repo).prints)
    ∧ (∀ d n, env.commit = .ok d → prRefMatch ((d.message.getD "").toList) = some n →
        env.prDetail n = .netError →
        (stepResolve env hash repo).outcome = .result none ∧
          errPrint env ∈ (stepResolve env hash repo).prints)
    ∧ (∀ d, env.commit = .ok d → strategy1FindsNoPR env d = true → env.search = .netError →
        (stepResolve env hash repo).outcome = .result none ∧
          errPrint env ∈ (stepResolve env hash repo).prints)
    ∧ (∀ d, env.commit = .ok d → strategy1FindsNoPR env d = true →
        searchFindsNoPR env = true → env.pulls = .netError →
        (stepResolve env hash repo).outcome = .result none ∧
          errPrint env ∈ (stepResolve env hash repo).prints)
    ∧ (∀ d, env.commit = .ok d → strategy1FindsNoPR env d = true →
        searchFindsNoPR env = true → env.pulls = .ok [] →
        (stepResolve env hash repo).outcome =
          .result (some ⟨none, none, none, commitAuthorOf d, coAuthorsOf (d.message.getD "")⟩))
    ∧ (∀ (resolve : String → Option PRInfo) (changeset : String),
        (releaseNoteEntries resolve changeset).length = (processedHashes changeset).length) := by
  refine ⟨?_, ?_, ?_, ?_, ?_, ?_, ?_⟩
  · intro hc
    simp [stepResolve, hc]
  · intro hc
    simp [stepResolve, hc]
  · intro d n hc hm hd
    rw [stepResolve_ref_netError env hash repo d n hc hm hd]
    simp
  · intro d hc h1 hs
    obtain ⟨ps, cs, hstep, _, _⟩ := stepResolve_strategy1_none env hash repo d hc h1
    rw [hstep]
    simp [StepResult.withPre, strategy2, hs]
  · intro d hc h1 h2 hp
    obtain ⟨ps, cs, hstep, _, _⟩ := stepResolve_strategy1_none env hash repo d hc h1
    rw [hstep]
    constructor
    · show (strategy2 env hash _ _).outcome = _
      rw [strategy2_outcome_falls env hash _ _ h2]
      simp [strategy3, hp]
    · show errPrint env ∈ ps ++ (strategy2 env hash _ _).prints
      have hmem : errPrint env ∈ (strategy2 env hash (commitAuthorOf d)
          (coAuthorsOf (d.message.getD ""))).prints := by
        rw [searchFindsNoPR] at h2
        rcases hs : env.search with items | reset | _ | _ <;> simp only [hs] at h2 <;>
          simp only [strategy2, hs, StepResult.withPre]
        · rcases hfil : items.filter (fun it => !(isReleasePR it.title)) with _ | ⟨item, rest⟩ <;>
            simp only [hfil] at h2 <;> simp only [hfil]
          · simp [strategy3, hp]
          · simp only [decide_eq_true_eq] at h2
            simp only [h2]
            simp [strategy3, hp, StepResult.withPre]
        · simp only [decide_eq_true_eq] at h2
          rw [if_neg (by omega)]
          simp [strategy3, hp, StepResult.withPre]
        · simp [strategy3, hp, StepResult.withPre]
        · exact absurd h2 (by simp)
      simp [hmem]
  · intro d hc h1 h2 hp
    obtain ⟨ps, cs, hstep, _, _⟩ := stepResolve_strategy1_none env hash repo d hc h1
    rw [hstep]
    show (strategy2 env hash _ _).outcome = _
    rw [strategy2_outcome_falls env hash _ _ h2]
    simp [strategy3, hp]
  · intro resolve changeset
    rw [releaseNoteEntries_eq_map]
    simp

/-- Witness for C3: a 404 commit lookup yields the `None` result with the
not-found message, and the all-strategies-fail environment yields the
record with null PR fields. -/
theorem c3_error_taxonomy_witness :
    stepResolve envNotFound "abc1234" "saleor/saleor-dashboard" =
      ⟨.result none, ["Commit abc1234 not found in repository saleor/saleor-dashboard"],
        [ApiCall.getCommit "abc1234"]⟩ ∧
    (stepResolve envNone "abc1234" "o/r").outcome =
      .result (some ⟨none, none, none, "Jane Roe", ["@jdoe"]⟩) := by
  constructor
  · exact (c3_error_taxonomy envNotFound "abc1234" "saleor/saleor-dashboard").1 rfl
  · have h := (c3_error_taxonomy envNone "abc1234" "o/r").2.2.2.2.2.1 dCo rfl
      (by decide) (by decide) rfl
    rw [h]
    rfl

/-- C4 counterexample: a rate-limited 403 at the fallback endpoint whose
`X-RateLimit-Reset` is not in the future (reset 0, current time 100) does
NOT trigger any retry — the clamped wait is zero, the 403 reaches
`raise_for_status`, and resolution surfaces the error result `None`,
contrary to the claim that every rate-limit response is retried once and
never surfaced as an error. -/
theorem c4_rate_limit_counterexample :
    envRL0.pulls = PullsResp.rateLimited 0 ∧
    (stepResolve envRL0 "abc" "o/r").outcome = Outcome.result none ∧
    (stepResolve envRL0 "abc" "o/r").prints =
      ["Searching for PRs that mention commit abc...",
       "Falling back to commits/pulls endpoint for abc...",
       "Error fetching data from GitHub: 403 Client Error"] := by
  refine ⟨rfl, rfl, rfl⟩

/-- C4 (amended): a rate-limited response at the search or fallback endpoint
whose reset timestamp lies strictly in the future makes the resolver sleep
exactly `reset - now` seconds (never negative) and re-invoke the same
resolution call exactly once for that occurrence; when the clamped wait is
zero no retry happens: at the search endpoint resolution falls through to
the fallback endpoint, and at the fallback endpoint the 403 reaches
`raise_for_status` and is surfaced as the error result `None`. -/
theorem c4_rate_limit (env : Env) (hash repo : String) (d : CommitData)
    (hc : env.commit = .ok d) (h1 : strategy1FindsNoPR env d = true) :
    (∀ reset, env.search = .rateLimited reset → env.now < reset →
      (stepResolve env hash repo).outcome = .retry (reset - env.now))
    ∧ (∀ reset, env.search = .rateLimited reset → reset ≤ env.now →
        (stepResolve env hash repo).outcome
          = (strategy3 env hash (commitAuthorOf d) (coAuthorsOf (d.message.getD ""))).outcome)
    ∧ (∀ reset, env.pulls = .rateLimited reset → searchFindsNoPR env = true → env.now < reset →
        (stepResolve env hash repo).outcome = .retry (reset - env.now))
    ∧ (∀ reset, env.pulls = .rateLimited reset → searchFindsNoPR env = true → reset ≤ env.now →
        (stepResolve env hash repo).outcome = .result none)
    ∧ (∀ (envs : Nat → Env) (fuel : Nat) (w : Nat), envs 0 = env →
        (stepResolve env hash repo).outcome = .retry w →
        get_pull_request_info (fuel + 1) envs hash repo
          = get_pull_request_info fuel (fun i => envs (i + 1)) hash repo) := by
  obtain ⟨ps, cs, hstep, _, _⟩ := stepResolve_strategy1_none env hash repo d hc h1
  refine ⟨?_, ?_, ?_, ?_, ?_⟩
  · intro reset hs hw
    rw [hstep]
    show (strategy2 env hash _ _).outcome = _
    exact strategy2_rateLimited_retry env hash _ _ reset hs hw
  · intro reset hs hw
    rw [hstep]
    show (strategy2 env hash _ _).outcome = _
    refine strategy2_outcome_falls env hash _ _ ?_
    rw [searchFindsNoPR, hs]
    simp
    omega
  · intro reset hp h2 hw
    rw [hstep]
    show (strategy2 env hash _ _).outcome = _
    rw [strategy2_outcome_falls env hash _ _ h2]
    exact strategy3_rateLimited_retry env hash _ _ reset hp hw
  · intro reset hp h2 hw
    rw [hstep]
    show (strategy2 env hash _ _).outcome = _
    rw [strategy2_outcome_falls env hash _ _ h2]
    exact strategy3_rateLimited_zero env hash _ _ reset hp hw
  · intro envs fuel w henv hretry
    rw [get_pull_request_info, henv, hretry]

/-- Witness for C4: with `X-RateLimit-Reset` 5 seconds in the future
(reset 105, current time 100) at the search endpoint, the resolver sleeps
exactly 5 seconds and re-invokes itself once. -/
theorem c4_rate_limit_witness :
    (stepResolve envRL5 "abc" "o/r").outcome = Outcome.retry 5 ∧
    get_pull_request_info 1 envsRL "abc" "o/r"
      = get_pull_request_info 0 (fun i => envsRL (i + 1)) "abc" "o/r" := by
  constructor
  · have h := (c4_rate_limit envRL5 "abc" "o/r" dPlain rfl (by decide)).1 105 rfl (by decide)
    rw [h]
    rfl
  · exact (c4_rate_limit envRL5 "abc" "o/r" dPlain rfl (by decide)).2.2.2.2 envsRL 0 5 rfl
      ((c4_rate_limit envRL5 "abc" "o/r" dPlain rfl (by decide)).1 105 rfl (by decide))

/-- C5: the contributor list assembled for the report is order-preserving
and duplicate-free under literal string equality: it contains no duplicate
strings, it is a subsequence of the raw assembly order (commit author, then
PR author, then co-authors in message order), every identity string appears
at most once, a commit author that is a normal identity (nonempty and not
"Unknown") comes first, every co-author spelling appears — so two trailers
naming the same person with different spellings both survive — and a PR
author that is a normal identity distinct from the commit author appears. -/
theorem c5_contributor_list (info : PRInfo) :
    (uniqueContributors info).Nodup
    ∧ (uniqueContributors info).Sublist (contributorsRaw info)
    ∧ (∀ a, (uniqueContributors info).count a ≤ 1)
    ∧ (info.commit_author ≠ "" → info.commit_author ≠ "Unknown" →
        (uniqueContributors info).head? = some info.commit_author)
    ∧ (∀ x ∈ info.co_authors, x ∈ uniqueContributors info)
    ∧ (∀ a, info.pr_author = some a → a ≠ "" → a ≠ "Unknown" → a ≠ info.commit_author →
        a ∈ uniqueContributors info) := by
  refine ⟨pyDedup_nodup _, pyDedup_sublist _, ?_, ?_, ?_, ?_⟩
  · exact fun a => List.nodup_iff_count_le_one.mp (pyDedup_nodup _) a
  · intro h1 h2
    obtain ⟨t, ht⟩ : ∃ t, contributorsRaw info = info.commit_author :: t := by
      rw [contributorsRaw, if_pos (by simp [h1, h2])]
      exact ⟨_, rfl⟩
    rw [uniqueContributors, ht, pyDedup_cons_head]
  · intro x hx
    rw [uniqueContributors, mem_pyDedup, contributorsRaw]
    simp [hx]
  · intro a hpa h1 h2 h3
    rw [uniqueContributors, mem_pyDedup, contributorsRaw, hpa]
    simp [h1, h2, h3]

/-- Witness for C5 at a concrete record: the deduplicated list starts with
the commit author, keeps both spellings of the co-author, and never repeats
the commit author. -/
theorem c5_contributor_list_witness :
    (uniqueContributors infoC5).Nodup ∧
    (uniqueContributors infoC5).head? = some "@alice" ∧
    "Jane D" ∈ uniqueContributors infoC5 ∧
    "jane-d" ∈ uniqueContributors infoC5 ∧
    (uniqueContributors infoC5).count "@alice" ≤ 1 := by
  have h := c5_contributor_list infoC5
  exact ⟨h.1, h.2.2.2.1 (by decide) (by decide), h.2.2.2.2.1 "Jane D" (by decide),
    h.2.2.2.2.1 "jane-d" (by decide), h.2.2.1 "@alice"⟩

/-- C10: an author identity equal to the literal string "Unknown" is
silently excluded from the contributor list, both as commit author and as
PR author.  A PR author `"Unknown"` is dropped even beside a normal commit
author (where the distinctness test passes, so only the `!= "Unknown"` test
can drop it); a commit author `"Unknown"` is dropped even beside a normal
PR author; with both `"Unknown"` only the co-authors remain.  And whenever
the deduplicated contributor list is empty — for any record — the rendered
entry contains no `Contributors:` line at all, going straight from the
commit header to the body or placeholder. -/
theorem c10_unknown_excluded (hash : String) (info : PRInfo) :
    (info.pr_author = some "Unknown" → info.commit_author ≠ "" →
      info.commit_author ≠ "Unknown" →
      contributorsRaw info = info.commit_author :: info.co_authors)
    ∧ (∀ a, info.commit_author = "Unknown" → info.pr_author = some a → a ≠ "" →
        a ≠ "Unknown" → contributorsRaw info = a :: info.co_authors)
    ∧ (info.commit_author = "Unknown" →
        (info.pr_author = none ∨ info.pr_author = some "Unknown") →
        contributorsRaw info = info.co_authors)
    ∧ (uniqueContributors info = [] →
        renderEntry hash (some info) =
          "Commit " ++ hash
            ++ (if strTruthy info.pr_number then " (PR #" ++ info.pr_number.getD "" ++ ")" else "")
            ++ ":\n"
            ++ (if strTruthy info.pr_body then "\n" ++ info.pr_body.getD "" ++ "\n\n"
                else "\nNo pull request description found.\n\n")) := by
  refine ⟨?_, ?_, ?_, ?_⟩
  · intro hp h1 h2
    rw [contributorsRaw, hp, if_pos (by simp [h1, h2])]
    simp
  · intro a hc hp h1 h2
    rw [contributorsRaw, hc, hp, if_neg (by simp)]
    simp [h1, h2]
  · intro hc hp
    rw [contributorsRaw, hc]
    rcases hp with hp | hp <;> rw [hp] <;> simp
  · intro huniq
    rw [renderEntry]
    simp only [huniq, ne_eq, not_true_eq_false, if_false, String.append_empty]

/-- Witness for C10 at concrete records: an "Unknown" PR author beside the
normal commit author `@alice` leaves only `@alice`; an "Unknown" commit
author beside the normal PR author `@bob` leaves `@bob` and the co-author;
with both "Unknown" and no co-authors the list is empty and the entry has
no `Contributors:` line. -/
theorem c10_unknown_excluded_witness :
    contributorsRaw infoC10a = ["@alice"] ∧
    contributorsRaw infoC10b = ["@bob", "x y"] ∧
    contributorsRaw infoC10 = [] ∧
    renderEntry "abc1234" (some infoC10) = "Commit abc1234 (PR #5):\n\nB\n\n" := by
  refine ⟨?_, ?_, ?_, ?_⟩
  · rw [(c10_unknown_excluded "abc1234" infoC10a).1 rfl (by decide) (by decide)]
    rfl
  · rw [(c10_unknown_excluded "abc1234" infoC10b).2.1 "@bob" rfl rfl (by decide) (by decide)]
    rfl
  · rw [(c10_unknown_excluded "abc1234" infoC10).2.2.1 rfl (Or.inr rfl)]
    rfl
  · rw [(c10_unknown_excluded "abc1234" infoC10).2.2.2 (by decide)]
    rfl

/-- C6 counterexample: for the trailer `Co-authored-by: John Smith
<x@github.com.org>`, the email's domain is `github.com.org` — not the
hosting provider's no-reply domain — and the name contains a space, so the
claimed precedence renders the raw name "John Smith"; but the code tests
for the substring `@github.com`, which this email contains, and renders
`@x` instead. -/
theorem c6_coauthor_identity_counterexample :
    coAuthorsOf "Co-authored-by: John Smith <x@github.com.org>" = ["@x"] ∧
    emailDomain "x@github.com.org" = "github.com.org" ∧
    coAuthorIdentitySpec "John Smith" "x@github.com.org" = "John Smith" ∧
    ("@x" : String) ≠ "John Smith" := by
  refine ⟨rfl, rfl, rfl, by decide⟩

/-- C6 (amended): for every well-formed `Co-authored-by: Name <email>`
trailer the rendered identity is `coAuthorIdentity` of the stripped groups:
if the email contains the substring `@github.com`, `@` followed by the text
before the email's first `@`; else if the stripped name is nonempty and
contains none of space, `.`, `,`, `@name`; else the raw stripped name.  The
co-author list preserves message order and is not deduplicated: two
trailers yield their two identities in order. -/
theorem c6_coauthor_identity (name email name2 email2 : String)
    (hn : ∀ c ∈ name.toList, c ≠ '<' ∧ c ≠ '\n' ∧ c ≠ '\r')
    (he : ∀ c ∈ email.toList, c ≠ '>' ∧ c ≠ '\n' ∧ c ≠ '\r') (hene : email ≠ "")
    (hn2 : ∀ c ∈ name2.toList, c ≠ '<' ∧ c ≠ '\n' ∧ c ≠ '\r')
    (he2 : ∀ c ∈ email2.toList, c ≠ '>' ∧ c ≠ '\n' ∧ c ≠ '\r') (hene2 : email2 ≠ "") :
    coAuthorsOf ("Co-authored-by: " ++ name ++ " <" ++ email ++ ">")
      = [coAuthorIdentity (pyStrip name) (pyStrip email)]
    ∧ coAuthorsOf ("Co-authored-by: " ++ name ++ " <" ++ email ++ ">" ++ "\n"
          ++ ("Co-authored-by: " ++ name2 ++ " <" ++ email2 ++ ">"))
        = [coAuthorIdentity (pyStrip name) (pyStrip email),
           coAuthorIdentity (pyStrip name2) (pyStrip email2)] := by
  constructor
  · rw [coAuthorsOf, pySplitlines_single _ (trailer_chars name email hn he)
      (trailer_ne_empty name email)]
    simp [List.filterMap_cons, coAuthorLine_trailer name email hn he hene]
  · rw [coAuthorsOf, pySplitlines_two _ _ (trailer_chars name email hn he)
      (trailer_chars name2 email2 hn2 he2) (trailer_ne_empty name2 email2)]
    simp [List.filterMap_cons, coAuthorLine_trailer name email hn he hene,
      coAuthorLine_trailer name2 email2 hn2 he2 hene2]

/-- Witness for C6 at concrete trailers: a punctuation-free name becomes
`@jdoe`, and a name with space and period stays raw, in message order. -/
theorem c6_coauthor_identity_witness :
    coAuthorsOf ("Co-authored-by: " ++ "jdoe" ++ " <" ++ "j@x.com" ++ ">" ++ "\n"
        ++ ("Co-authored-by: " ++ "J. Smith" ++ " <" ++ "js@example.com" ++ ">"))
      = ["@jdoe", "J. Smith"] := by
  have h := (c6_coauthor_identity "jdoe" "j@x.com" "J. Smith" "js@example.com"
    (by decide) (by decide) (by decide) (by decide) (by decide) (by decide)).2
  rw [h]
  rfl

/-- C7: commit-hash extraction scans the changeset line by line.  A line
matches exactly when it contains a hexadecimal token of 7 to 40 characters
immediately followed by a colon; the returned hash is such a token at the
leftmost start position allowing one (the first match in the line); lines
without such a pattern contribute no resolution attempt — the number of
rendered entries equals the number of matching lines — and every line of
the changeset reappears among the lines of the output, whose echoed header
is the changeset verbatim. -/
theorem c7_hash_extraction (changeset : String) (resolve : String → Option PRInfo) :
    (∀ line : String, (hashMatch line.toList).isSome ↔
      ∃ pre tok post, line.toList = pre ++ tok ++ ':' :: post ∧
        7 ≤ tok.length ∧ tok.length ≤ 40 ∧ ∀ c ∈ tok, isHexLower c = true)
    ∧ (∀ (line : String) (s : String), hashMatch line.toList = some s →
        ∃ pre tok post, s = ⟨tok⟩ ∧ line.toList = pre ++ tok ++ ':' :: post ∧
          7 ≤ tok.length ∧ tok.length ≤ 40 ∧ (∀ c ∈ tok, isHexLower c = true) ∧
          ∀ pre' tok' post', line.toList = pre' ++ tok' ++ ':' :: post' →
            7 ≤ tok'.length → tok'.length ≤ 40 → (∀ c ∈ tok', isHexLower c = true) →
            pre.length ≤ pre'.length)
    ∧ (releaseNoteEntries resolve changeset).length
        = ((pySplitlines changeset).filter (fun l => (hashMatch l.toList).isSome)).length
    ∧ (∀ line ∈ pySplitlines changeset,
        line ∈ pySplitlines (generate_release_notes resolve changeset))
    ∧ (∃ rest, generate_release_notes resolve changeset = changeset ++ rest) := by
  refine ⟨?_, fun line s h => hashMatch_eq_some line.toList s h, ?_, ?_, ?_⟩
  · intro line
    constructor
    · intro h
      obtain ⟨s, hs⟩ := Option.isSome_iff_exists.mp h
      obtain ⟨pre, tok, post, _, hl, h7, h40, hhex, _⟩ := hashMatch_eq_some line.toList s hs
      exact ⟨pre, tok, post, hl, h7, h40, hhex⟩
    · rintro ⟨pre, tok, post, hl, h7, h40, hhex⟩
      rw [hl]
      exact hashMatch_isSome_of_token pre tok post h7 h40 hhex
  · rw [releaseNoteEntries_eq_map, List.length_map, processedHashes,
      length_filterMap_eq_length_filter]
  · intro line hline
    have heq : generate_release_notes resolve changeset
        = changeset ++ "\n" ++ ("\n" ++ String.join (releaseNoteEntries resolve changeset)) := by
      rw [generate_release_notes]
      apply String.ext
      simp [String.data_append]
    rw [heq]
    exact mem_pySplitlines_append changeset _ line hline
  · refine ⟨"\n\n" ++ String.join (releaseNoteEntries resolve changeset), ?_⟩
    apply String.ext
    simp [generate_release_notes, String.data_append]

/-- Witness for C7 at a concrete changeset: the hash line matches (token
`abc1234` before the colon), entry count equals matching-line count, and
the non-matching line reappears in the output. -/
theorem c7_hash_extraction_witness :
    ((hashMatch "abc1234: fix".toList).isSome = true) ∧
    (releaseNoteEntries (fun _ => none) "abc1234: fix\nnope").length
      = ((pySplitlines "abc1234: fix\nnope").filter
          (fun l => (hashMatch l.toList).isSome)).length ∧
    "nope" ∈ pySplitlines (generate_release_notes (fun _ => none) "abc1234: fix\nnope") := by
  refine ⟨?_, (c7_hash_extraction "abc1234: fix\nnope" (fun _ => none)).2.2.1, ?_⟩
  · exact ((c7_hash_extraction "abc1234: fix\nnope" (fun _ => none)).1 "abc1234: fix").2
      ⟨[], "abc1234".toList, " fix".toList, by decide, by decide, by decide, by decide⟩
  · exact (c7_hash_extraction "abc1234: fix\nnope" (fun _ => none)).2.2.2.1 "nope" (by decide)

/-- C8 counterexample: with an API whose commit payload carries no author
fields, the resolver returns a record (a RESOLVED commit) whose contributor
list is empty; the rendered entry goes straight from the header to the
placeholder, with no `Contributors:` line anywhere in the report — contrary
to the claim that each resolved entry carries one. -/
theorem c8_report_format_counterexample :
    runResolve envUnknown "o/r" "abc1234" = some ⟨none, none, none, "Unknown", []⟩ ∧
    generate_release_notes (runResolve envUnknown "o/r") "abc1234: x"
      = "abc1234: x\n\nCommit abc1234:\n\nNo pull request description found.\n\n" ∧
    containsSub "Contributors:".toList
      (generate_release_notes (runResolve envUnknown "o/r") "abc1234: x").toList = false := by
  refine ⟨rfl, rfl, rfl⟩

/-- C8 (amended): the report equals the original changeset text, a blank
line, then one entry per matched commit in input order; a resolved entry is
the header `Commit <hash>` with ` (PR #N)` appended when the PR number is
truthy, then a `Contributors:` line exactly when the deduplicated
contributor list is nonempty (omitted entirely when it is empty), then the
PR body when truthy or the fixed placeholder sentence; an unresolved commit
instead gets the short failure line.  Instantiated end to end: a mock API
carrying PR 42 with body "Fixes bug X" for commit `abc1234:` yields the
claimed literal output. -/
theorem c8_report_format (resolve : String → Option PRInfo) (changeset hash : String)
    (info : PRInfo) :
    generate_release_notes resolve changeset
      = changeset ++ "\n\n" ++ String.join
          ((processedHashes changeset).map (fun h => renderEntry h (resolve h)))
    ∧ renderEntry hash none = s!"Commit {hash}: Could not retrieve commit information.\n\n"
    ∧ (uniqueContributors info ≠ [] →
        renderEntry hash (some info)
          = "Commit " ++ hash
            ++ (if strTruthy info.pr_number then " (PR #" ++ info.pr_number.getD "" ++ ")" else "")
            ++ ":\n"
            ++ ("Contributors: " ++ String.intercalate ", " (uniqueContributors info) ++ "\n")
            ++ (if strTruthy info.pr_body then "\n" ++ info.pr_body.getD "" ++ "\n\n"
                else "\nNo pull request description found.\n\n"))
    ∧ generate_release_notes (runResolve envMock "saleor/saleor-dashboard") "abc1234: fix bug"
        = "abc1234: fix bug\n\nCommit abc1234 (PR #42):\nContributors: @alice, @bob\n\nFixes bug X\n\n" := by
  refine ⟨?_, rfl, ?_, ?_⟩
  · rw [generate_release_notes, releaseNoteEntries_eq_map]
  · intro hne
    rw [renderEntry, if_pos hne]
  · rfl

/-- Witness for C8: the rendered entry of a resolved commit with
contributors carries the header, the `Contributors:` line and the body. -/
theorem c8_report_format_witness :
    renderEntry "abc1234" (some ⟨some "42", some "Fixes bug X", some "@bob", "@alice", []⟩)
      = "Commit abc1234 (PR #42):\nContributors: @alice, @bob\n\nFixes bug X\n\n" := by
  have h := (c8_report_format (fun _ => none) "" "abc1234"
    ⟨some "42", some "Fixes bug X", some "@bob", "@alice", []⟩).2.2.1 (by decide)
  rw [h]
  rfl

/-- C9 counterexample: an API that answers every request with a rate-limited
403 whose reset (1000) lies in the future of the current time (100) does
NOT make resolution run forever: the initial commit lookup has no rate-limit
branch, so `raise_for_status` raises, the handler catches it, and the call
terminates at once with the error result `None`. -/
theorem c9_unbounded_retry_counterexample :
    envC9bad.commit = CommitResp.rateLimited 1000 ∧
    envC9bad.search = SearchResp.rateLimited 1000 ∧
    envC9bad.pulls = PullsResp.rateLimited 1000 ∧
    envC9bad.now < 1000 ∧
    get_pull_request_info 1 envsC9bad "abc1234" "o/r" = some none := by
  exact ⟨rfl, rfl, rfl, by decide, rfl⟩

/-- C9 (amended): the rate-limit wait-and-retry has no maximum retry count:
when the commit lookup succeeds, strategy 1 finds nothing, and the search
keeps answering every attempt with a rate-limited 403 whose reset lies in
the future, the resolution call never terminates — no amount of fuel makes
the retry recursion return (the recursion has no decreasing measure).  A
rate-limit answer to the initial commit lookup itself is not retried; it
terminates immediately with the error result, as the counterexample
records. -/
theorem c9_unbounded_retry : ∀ (fuel : Nat) (envs : Nat → Env) (hash repo : String),
    (∀ i, ∃ d, (envs i).commit = .ok d ∧
      prRefMatch ((d.message.getD "").toList) = none ∧
      ∃ r, (envs i).search = .rateLimited r ∧ (envs i).now < r) →
    get_pull_request_info fuel envs hash repo = none
  | 0, _, _, _, _ => rfl
  | fuel + 1, envs, hash, repo, H => by
    obtain ⟨d, hc, hm, r, hs, hr⟩ := H 0
    have h1 : strategy1FindsNoPR (envs 0) d = true := by
      rw [strategy1FindsNoPR, hm]
    obtain ⟨ps, cs, hstep, _, _⟩ := stepResolve_strategy1_none (envs 0) hash repo d hc h1
    have hout : (stepResolve (envs 0) hash repo).outcome = .retry (r - (envs 0).now) := by
      rw [hstep]
      exact strategy2_rateLimited_retry (envs 0) hash _ _ r hs hr
    rw [get_pull_request_info, hout]
    exact c9_unbounded_retry fuel (fun i => envs (i + 1)) hash repo (fun i => H (i + 1))

/-- Witness for C9: with the perpetually rate-limited search API, seven
units of fuel still end in a retry, never a result. -/
theorem c9_unbounded_retry_witness :
    get_pull_request_info 7 envsRL "abc1234" "o/r" = none :=
  c9_unbounded_retry 7 envsRL "abc1234" "o/r"
    (fun i => ⟨dPlain, rfl, by decide, 105, rfl,
      show (100 : Nat) < 105 by decide⟩)

end DashboardReleaseNotes
